import Mathlib

/-!
Verification development for the syrah container format (Python package
`syrah`).  The definitions below are a shallow embedding of the source
files `syrah/_hl/serialization.py`, `syrah/_hl/metadata.py` and
`syrah/_hl/files.py`.  Python byte strings are modelled as `List Nat`
(one entry per byte), Python `str` values that become payload bytes are
modelled by their UTF-8 byte sequences, numpy arrays by the `NpArray`
inductive, and the mutable objects (`MetadataWriter`, `MetadataReader`,
`File`) by explicit state records.  Methods that mutate state and may
raise become functions returning `state × Option PyErr` (mutations that
happened before the exception are kept, as in Python); methods that
only return a value or raise become functions into `Except PyErr`.
-/

namespace Syrah

/-- Python byte strings (`bytes`): a list of byte values. -/
abbrev Bytes := List Nat

/-- The Python exception classes raised by the code (plus
`indexCorrupt`, a dedicated index-corruption error that the
specification names but the code never raises; it is included so that
theorems can state that the code does not fail with it). -/
inductive PyErr
  | typeError
  | valueError
  | keyError
  | indexError
  | attributeError
  | ioError
  | bsonError
  | indexCorrupt
deriving DecidableEq

/-! ## Little-endian byte packing

`numpy.ndarray.tobytes` / `numpy.frombuffer` on little-endian hosts;
the format's byte-order contract is little-endian. -/

/-- Little-endian base-256 digits: `leBytes k n` is the `k`-byte
little-endian representation of `n % 256^k`. -/
def leBytes : Nat → Nat → Bytes
  | 0, _ => []
  | k + 1, n => n % 256 :: leBytes k (n / 256)

/-- Value of a little-endian byte list. -/
def leVal : Bytes → Nat
  | [] => 0
  | b :: bs => b + 256 * leVal bs

/-- `np.array([i], dtype=np.int64).tobytes()`: 8 two's-complement
little-endian bytes. -/
def int64ToBytes (i : Int) : Bytes := leBytes 8 (i.emod (2 ^ 64)).toNat

/-- `np.frombuffer(b, dtype=np.int64)[0]` on an 8-byte buffer:
little-endian two's complement. -/
def int64OfBytes (bs : Bytes) : Int :=
  let n := leVal bs
  if n < 2 ^ 63 then (n : Int) else (n : Int) - 2 ^ 64

/-- Split a byte string into 8-byte chunks (callers establish that the
length is a multiple of 8; a short tail cannot occur there). -/
def chunks8 : Bytes → List Bytes
  | b0 :: b1 :: b2 :: b3 :: b4 :: b5 :: b6 :: b7 :: rest =>
      [b0, b1, b2, b3, b4, b5, b6, b7] :: chunks8 rest
  | _ => []

/-- `np.frombuffer(b, dtype=np.int64)`: fails with `ValueError` unless
the buffer size is a multiple of the 8-byte item size. -/
def frombufferInt64 (bs : Bytes) : Except PyErr (List Int) :=
  if bs.length % 8 = 0 then .ok ((chunks8 bs).map int64OfBytes)
  else .error .valueError

/-! ## File byte-level primitives

A disk file is a `Bytes`; `writeAt` models `seek(pos)` followed by
`write(data)` (zero padding appears if `pos` is past the end of file),
`readAt` models `seek(pos)` followed by `read(n)` (short reads near the
end of file return the available bytes). -/

/-- Overwrite `data` into `file` starting at byte `pos`. -/
def writeAt (file : Bytes) (pos : Nat) (data : Bytes) : Bytes :=
  file.take pos ++ List.replicate (pos - file.length) 0 ++ data
    ++ file.drop (pos + data.length)

/-- Read `n` bytes of `file` starting at byte `pos`. -/
def readAt (file : Bytes) (pos n : Nat) : Bytes := (file.drop pos).take n

/-! ## serialization.py -/

/-- Supported types by index (`dtypes`): numpy `dtype.num` to type
name, listed in source order. -/
def dtypes : List (Nat × String) :=
  [(0, "bool"), (1, "int8"), (2, "uint8"), (3, "int16"), (4, "uint16"),
   (5, "int32"), (6, "uint32"), (7, "int64"), (8, "uint64"),
   (23, "float16"), (11, "float32"), (12, "float64"), (13, "float128"),
   (19, "str")]

/-- Supported types by name: the intended value of
`dtype_names = {value: key for key, value in dtypes.items()}`, the
exact inverse of `dtypes`.  The source line actually reads
`{value: key for key, value in dtypes}`, which fails at import time;
see `dtype_names_as_written` below.  The rest of the embedding uses
this intended table, since no other code can run at all without it. -/
def dtype_names : List (String × Nat) := dtypes.map (fun p => (p.2, p.1))

/-- A Python runtime value, as far as the faulty dict comprehension in
`serialization.py` needs: dict keys here are ints, dict items are
pairs. -/
inductive PyVal
  | int (n : Nat)
  | str (s : String)
  | pair (a b : PyVal)
deriving DecidableEq

/-- Iterating a Python dict yields its keys (not its items). -/
def dictIterKeys (d : List (Nat × String)) : List PyVal :=
  d.map (fun p => .int p.1)

/-- Tuple unpacking `key, value = v`: succeeds on a pair, raises
`TypeError` on an int (ints are not iterable). -/
def unpack2 : PyVal → Except PyErr (PyVal × PyVal)
  | .pair a b => .ok (a, b)
  | _ => .error .typeError

/-- The comprehension `{value: key for key, value in dtypes}` exactly
as written in the source: it iterates the dict (yielding the int keys)
and tries to unpack each key into `key, value`, so it raises
`TypeError` on the first element and the module fails to import. -/
def dtype_names_as_written : Except PyErr (List (PyVal × PyVal)) :=
  (dictIterKeys dtypes).foldlM
    (fun acc v => do
      let p ← unpack2 v
      pure ((p.2, p.1) :: acc))
    []

/-- numpy element sizes in bytes for the supported non-text type
names (used by `np.frombuffer`). -/
def itemsize (t : String) : Nat :=
  if t = "bool" ∨ t = "int8" ∨ t = "uint8" then 1
  else if t = "int16" ∨ t = "uint16" ∨ t = "float16" then 2
  else if t = "int32" ∨ t = "uint32" ∨ t = "float32" then 4
  else if t = "int64" ∨ t = "uint64" ∨ t = "float64" then 8
  else if t = "float128" then 16
  else 1

/-- A numpy array as the codec sees it: either a numeric/boolean array
(identified by its `dtype.num` together with its raw little-endian
buffer `data = array.tobytes()`), or a text array (numpy unicode dtype,
`dtype.num = 19`), whose elements are Python strings modelled by their
UTF-8 byte sequences.  Unsupported element types (complex, object, ...)
are numeric constructors whose `dtypeNum` is absent from `dtypes`. -/
inductive NpArray
  | numeric (dtypeNum : Nat) (data : Bytes)
  | text (elems : List Bytes)
deriving DecidableEq

/-- `format_dtype`: maps `array.dtype.num` through the `dtypes` table,
raising `TypeError` for unsupported element types. -/
def format_dtype : NpArray → Except PyErr String
  | .numeric d _ =>
      match List.lookup d dtypes with
      | some t => .ok t
      | none => .error .typeError
  | .text _ => .ok "str"

/-- `serialize_array`: text arrays are concatenated and UTF-8 encoded
(concatenation of strings corresponds to concatenation of their UTF-8
byte sequences), other supported arrays contribute their raw buffer. -/
def serialize_array : NpArray → Except PyErr (Bytes × String)
  | .numeric d data =>
      match List.lookup d dtypes with
      | some t => .ok (data, t)
      | none => .error .typeError
  | .text elems => .ok (elems.flatten, "str")

/-- `deserialize_array`: unknown type tags raise `TypeError`; the text
tag decodes the bytes and wraps the single resulting string
(`np.array([string])`); other tags reinterpret the byte span via
`np.frombuffer`, which requires the length to be a multiple of the
item size.  Decoding of UTF-8 is the identity in this model because
strings are represented by their UTF-8 bytes (every byte string that
reaches the decoder in the theorems below is a valid encoding). -/
def deserialize_array (bs : Bytes) (data_type : String) :
    Except PyErr NpArray :=
  match List.lookup data_type dtype_names with
  | none => .error .typeError
  | some d =>
      if data_type = "str" then .ok (.text [bs])
      else if bs.length % itemsize data_type = 0 then
        .ok (.numeric d bs)
      else .error .valueError

/-! ## metadata.py — writer side

`metadata_types = {'offset': [np.int64], 'size': [np.int64],
'dtype': str}`: `offset` and `size` are per-item list fields (stored as
columns inside `self.data`, addressed by a column index kept in
`self.metadata[array_key][field]`), `dtype` is a per-file scalar field
(stored directly in `self.metadata[array_key]['dtype']`).  The model
keeps this indirection. -/

/-- `self.metadata[array_key]`: the per-key record
`{'offset': column index, 'size': column index, 'dtype': string}`. -/
structure ColMeta where
  offsetCol : Nat
  sizeCol : Nat
  dtype : String
deriving DecidableEq

/-- One entry of the `item_metadata` dict handed to
`MetadataWriter.add_item` by `File.add_item`:
`{'offset': int, 'size': int, 'dtype': str}`.  (The source also checks
that each entry has exactly these keys; the record type makes that
structural.) -/
structure ArrayMeta where
  offset : Nat
  size : Nat
  dtype : String
deriving DecidableEq

/-- `MetadataWriter` state: `metadata` is `None` until the first item
establishes the key set (a Python dict, modelled as an insertion-ordered
association list with distinct keys), `data` is the list of columns,
`length` the item count. -/
structure MetadataWriter where
  metadata : Option (List (String × ColMeta))
  data : List (List Nat)
  length : Nat
deriving DecidableEq

/-- `MetadataWriter.__init__`. -/
def mkMetadataWriter : MetadataWriter := ⟨none, [], 0⟩

/-- Core of `_init_metadata`: for each key of the first item, in
insertion order, allocate the `offset` column (index `len(self.data)`,
then append an empty column), then the `size` column, then record the
key's `dtype` scalar. -/
def initMetadataCore (item : List (String × ArrayMeta)) :
    List (String × ColMeta) × List (List Nat) :=
  item.foldl
    (fun (acc : List (String × ColMeta) × List (List Nat)) e =>
      (acc.1 ++ [(e.1, ⟨acc.2.length, acc.2.length + 1, e.2.dtype⟩)],
       acc.2 ++ [[], []]))
    ([], [])

/-- One step of `_append_metadata`: look the key up in
`self.metadata` (a missing key would be a `KeyError`; `add_item` has
already checked set equality), append `offset` and `size` to the key's
columns, then compare the scalar `dtype` with the recorded one,
raising `ValueError` on mismatch — note the column appends happen
before the check, so a mismatch leaves them in place. -/
def appendMetadataStep (md : List (String × ColMeta))
    (data : List (List Nat)) (e : String × ArrayMeta) :
    List (List Nat) × Option PyErr :=
  match List.lookup e.1 md with
  | none => (data, some .keyError)
  | some cm =>
      let d1 := data.set cm.offsetCol (data.getD cm.offsetCol [] ++ [e.2.offset])
      let d2 := d1.set cm.sizeCol (d1.getD cm.sizeCol [] ++ [e.2.size])
      if e.2.dtype = cm.dtype then (d2, none) else (d2, some .valueError)

/-- `_append_metadata`: iterate the item's entries in order, stopping
at the first exception but keeping the mutations made so far. -/
def appendMetadata (md : List (String × ColMeta))
    (data : List (List Nat)) :
    List (String × ArrayMeta) → List (List Nat) × Option PyErr
  | [] => (data, none)
  | e :: rest =>
      match appendMetadataStep md data e with
      | (d', none) => appendMetadata md d' rest
      | (d', some err) => (d', some err)

/-- Equality of Python `set(keys)` values. -/
def keySetEq (a b : List String) : Bool :=
  a.all (fun k => b.contains k) && b.all (fun k => a.contains k)

/-- `MetadataWriter.add_item`: on the first call initialise the key
set from the item; then require the item's key set to equal the
established one (else `KeyError`); then append the per-item fields
(possibly failing on a `dtype` change); finally increment `length`. -/
def MetadataWriter.add_item (w : MetadataWriter)
    (item : List (String × ArrayMeta)) : MetadataWriter × Option PyErr :=
  let w :=
    if w.length = 0 then
      let c := initMetadataCore item
      { w with metadata := some c.1, data := c.2 }
    else w
  match w.metadata with
  | none => (w, some .attributeError)
  | some md =>
      if keySetEq (item.map Prod.fst) (md.map Prod.fst) then
        match appendMetadata md w.data item with
        | (d', none) => ({ w with data := d', length := w.length + 1 }, none)
        | (d', some err) => ({ w with data := d' }, some err)
      else (w, some .keyError)

/-! ## bson blob model

`MetadataWriter.tobytes` serialises the per-key map with `bson.dumps`
and `MetadataReader.frombuffer` parses it with `bson.loads`.  `bson` is
an external library (not part of this repository); the code relies only
on `loads(dumps(d)) == d`.  The model therefore fixes one concrete
reversible binary encoding of the serialised dict
`key -> {'offset': bytes, 'size': bytes, 'dtype': str}`; the exact
wire bytes of the real bson library differ, but every property proved
here depends only on the blob being an opaque reversible unit with a
definite length. -/

/-- One serialised dict entry: key, packed offsets, packed sizes,
dtype name. -/
abbrev BlobEntry := String × Bytes × Bytes × String

/-- 8-byte little-endian length prefix. -/
def encNat8 (n : Nat) : Bytes := leBytes 8 n

/-- Length-prefixed byte string. -/
def encBytes (b : Bytes) : Bytes := encNat8 b.length ++ b

/-- Length-prefixed string: character codes, three bytes each. -/
def encStr (s : String) : Bytes :=
  encNat8 s.length ++ (s.data.map (fun c => leBytes 3 c.toNat)).flatten

/-- One encoded dict entry. -/
def encEntry (e : BlobEntry) : Bytes :=
  encStr e.1 ++ encBytes e.2.1 ++ encBytes e.2.2.1 ++ encStr e.2.2.2

/-- `bson.dumps` model: entry count, then the encoded entries. -/
def bsonDumps (d : List BlobEntry) : Bytes :=
  encNat8 d.length ++ (d.map encEntry).flatten

/-- Decode an 8-byte length prefix. -/
def decNat8 (l : Bytes) : Option (Nat × Bytes) :=
  if 8 ≤ l.length then some (leVal (l.take 8), l.drop 8) else none

/-- Decode a length-prefixed byte string. -/
def decBytes (l : Bytes) : Option (Bytes × Bytes) := do
  let (n, r) ← decNat8 l
  if n ≤ r.length then some (r.take n, r.drop n) else none

/-- Decode `n` three-byte character codes. -/
def decChars : Nat → Bytes → Option (List Char × Bytes)
  | 0, l => some ([], l)
  | n + 1, b0 :: b1 :: b2 :: rest => do
      let (cs, r) ← decChars n rest
      some (Char.ofNat (b0 + 256 * b1 + 65536 * b2) :: cs, r)
  | _ + 1, _ => none

/-- Decode a length-prefixed string. -/
def decStr (l : Bytes) : Option (String × Bytes) := do
  let (n, r) ← decNat8 l
  let (cs, r') ← decChars n r
  some (String.mk cs, r')

/-- Decode one dict entry. -/
def decEntry (l : Bytes) : Option (BlobEntry × Bytes) := do
  let (k, r1) ← decStr l
  let (ob, r2) ← decBytes r1
  let (sb, r3) ← decBytes r2
  let (dt, r4) ← decStr r3
  some ((k, ob, sb, dt), r4)

/-- Decode `n` dict entries. -/
def decEntries : Nat → Bytes → Option (List BlobEntry × Bytes)
  | 0, l => some ([], l)
  | n + 1, l => do
      let (e, r) ← decEntry l
      let (es, r') ← decEntries n r
      some (e :: es, r')

/-- `bson.loads` model: parse the entry count and then the entries. -/
def bsonLoads (l : Bytes) : Option (List BlobEntry) := do
  let (n, r) ← decNat8 l
  let (es, _) ← decEntries n r
  some es

/-- `MetadataWriter.tobytes`: with `self.metadata` still `None`
(no item ever added) this is `None.keys()`, an `AttributeError`;
otherwise pack each key's columns with
`np.array(column, dtype=np.int64).tobytes()` and serialise the dict. -/
def MetadataWriter.tobytes (w : MetadataWriter) : Except PyErr Bytes :=
  match w.metadata with
  | none => .error .attributeError
  | some md =>
      .ok (bsonDumps (md.map (fun e =>
        (e.1,
         ((w.data.getD e.2.offsetCol []).map (fun v => int64ToBytes v)).flatten,
         ((w.data.getD e.2.sizeCol []).map (fun v => int64ToBytes v)).flatten,
         e.2.dtype))))

/-! ## metadata.py — reader side -/

/-- `MpNdArray`: the process-shareable materialisation of the columns,
`mp.RawArray` over the raveled 2-D array with its recorded shape. -/
structure MpNdArray where
  rows : Nat
  cols : Nat
  flat : List Int
deriving DecidableEq

/-- `MpNdArray(np.array(arrays_list))`: `np.array` on a list of
equal-length 1-D arrays stacks them into a 2-D array; on columns of
unequal lengths the construction fails (recent numpy raises
`ValueError` for the inhomogeneous shape; on older numpy the object
array's type code makes the `mp.RawArray` wrapping fail instead — in
either case no value is produced). -/
def mkMpNdArray (rowsIn : List (List Int)) : Except PyErr MpNdArray :=
  match rowsIn with
  | [] => .ok ⟨0, 0, []⟩
  | r0 :: rest =>
      if rest.all (fun r => r.length = r0.length) then
        .ok ⟨rowsIn.length, r0.length, rowsIn.flatten⟩
      else .error .valueError

/-- `MpNdArray.__getitem__` with a 2-D index:
`np.ravel_multi_index` validates each coordinate against the shape and
raises `ValueError` out of bounds, then the flat buffer is read. -/
def MpNdArray.get (a : MpNdArray) (c i : Nat) : Except PyErr Int :=
  if c < a.rows ∧ i < a.cols then .ok (a.flat.getD (c * a.cols + i) 0)
  else .error .valueError

/-- `MetadataReader` state after a successful `frombuffer`. -/
structure MetadataReader where
  metadata : List (String × ColMeta)
  data : MpNdArray
  length : Nat
deriving DecidableEq

/-- Per-key loop of `MetadataReader.frombuffer`: for each key of the
decoded dict, in order, record the `offset` column index and decode the
packed offsets with `np.frombuffer(..., np.int64)`, then the same for
`size`, and store the `dtype` scalar. -/
def readerColumns :
    List BlobEntry → Except PyErr (List (String × ColMeta) × List (List Int))
  | [] => .ok ([], [])
  | e :: rest => do
      let ocol ← frombufferInt64 e.2.1
      let scol ← frombufferInt64 e.2.2.1
      let (md, cols) ← readerColumns rest
      .ok ((e.1, ⟨0, 1, e.2.2.2⟩) :: md, ocol :: scol :: cols)

/-- Renumber the column indices produced by `readerColumns` so that the
key at position `j` points at columns `2*j` and `2*j + 1`, exactly as
the running `len(arrays_list)` does in the source loop. -/
def renumber (start : Nat) :
    List (String × ColMeta) → List (String × ColMeta)
  | [] => []
  | e :: rest => (e.1, ⟨start, start + 1, e.2.dtype⟩) :: renumber (start + 2) rest

/-- `MetadataReader.frombuffer`: `bson.loads`, the per-key column
loop, the shared-memory wrapping of `np.array(arrays_list)`, and
finally `self.length = len(arrays_list[0])` — the item count is taken
from the first column and never compared across keys (an empty dict
makes `arrays_list[0]` an `IndexError`). -/
def MetadataReader.frombuffer (serialized : Bytes) :
    Except PyErr MetadataReader :=
  match bsonLoads serialized with
  | none => .error .bsonError
  | some d => do
      let (md, cols) ← readerColumns d
      let a ← mkMpNdArray cols
      match cols with
      | [] => .error .indexError
      | c0 :: _ => .ok ⟨renumber 0 md, a, c0.length⟩

/-- `MetadataReader.get`: `offset` and `size` are list fields read from
the shared columns at `(column index, item)`; `dtype` is the per-key
scalar, ignoring the item index. -/
def MetadataReader.get (r : MetadataReader) (item : Nat) (array_key : String)
    (metadata_key : String) : Except PyErr Int :=
  match List.lookup array_key r.metadata with
  | none => .error .keyError
  | some cm =>
      if metadata_key = "offset" then r.data.get cm.offsetCol item
      else if metadata_key = "size" then r.data.get cm.sizeCol item
      else .error .keyError

/-! ## files.py — the File object

`config.py` constants and the `File` state machine.  The state carries
the mode string, the descriptor state (`_fp is None`, `closed`, whether
the OS descriptor was opened read-only, its seek position), the visible
bytes of the file at the path, and the header/metadata fields.  The
version module pins `version.version = "0.3.0"`. -/

def MAGIC_BYTES : Bytes := [71, 83]

def NUM_BYTES_VERSION : Nat := 4

def NUM_BYTES_METADATA_OFFSET : Nat := 8

def NUM_BYTES_METADATA_LENGTH : Nat := 8

def NUM_BYTES_MAGIC_BYTES : Nat := MAGIC_BYTES.length

/-- First payload byte, as computed in `_init_data` (the source adds
`NUM_BYTES_METADATA_LENGTH` twice instead of naming
`NUM_BYTES_METADATA_OFFSET`; both constants are 8). -/
def ITEM_START : Nat :=
  NUM_BYTES_VERSION + NUM_BYTES_METADATA_LENGTH + NUM_BYTES_METADATA_LENGTH
    + NUM_BYTES_MAGIC_BYTES

/-- A version number `major.minor.patch` (the `"x.y.z"` string of
`version.py`, kept as its numeric parts). -/
structure Version where
  major : Nat
  minor : Nat
  patch : Nat
deriving DecidableEq

/-- `version.version = "0.3.0"`. -/
def srcVersion : Version := ⟨0, 3, 0⟩

/-- `_version_to_bytes`: `np.array([0] + parts, dtype=np.uint8)
.tobytes()` — a reserved zero byte, then the parts (wrapped mod 256 by
the uint8 conversion). -/
def version_to_bytes (v : Version) : Bytes :=
  [0, v.major % 256, v.minor % 256, v.patch % 256]

/-- `_version_to_string`: drop the reserved first byte and join the
remaining three as `"x.y.z"` (kept as the numeric triple). -/
def version_of_bytes (bs : Bytes) : Version :=
  ⟨bs.getD 1 0, bs.getD 2 0, bs.getD 3 0⟩

/-- The metadata member `self._metadata`: a writer, a reader, or
still `None`. -/
inductive MetaState
  | w (mw : MetadataWriter)
  | r (mr : MetadataReader)
  | noneM
deriving DecidableEq

/-- `len(self._metadata)` (both classes define `__len__`). -/
def MetaState.len : MetaState → Nat
  | .w mw => mw.length
  | .r mr => mr.length
  | .noneM => 0

/-- `self._metadata.tobytes()`: only `MetadataWriter` defines
`tobytes`; on a `MetadataReader` (or `None`) the attribute lookup
raises `AttributeError`. -/
def MetaState.tobytes : MetaState → Except PyErr Bytes
  | .w mw => mw.tobytes
  | .r _ => .error .attributeError
  | .noneM => .error .attributeError

/-- The `File` object state. -/
structure File where
  mode : String
  fpSome : Bool
  fpClosed : Bool
  fpReadOnly : Bool
  fpPos : Nat
  disk : Bytes
  version : Version
  metaOffset : Int
  metaLength : Int
  metaS : MetaState
  itemOffset : Option Nat
deriving DecidableEq

/-- A `File` member record before `__init__` runs. -/
def blankFile (disk : Bytes) : File :=
  ⟨"", false, false, false, 0, disk, srcVersion, 0, 0, .noneM, none⟩

/-- `self._fp = open(self._file_path, self._mode + 'b')`: a fresh OS
descriptor on the path; mode `'wb'` truncates the file, mode `'rb'`
opens it read-only, any other mode string is rejected by `open`. -/
def osOpen (f : File) (mode : String) : File × Option PyErr :=
  if mode = "w" then
    ({ f with fpSome := true, fpClosed := false, fpReadOnly := false,
              fpPos := 0, disk := [] }, none)
  else if mode = "r" then
    ({ f with fpSome := true, fpClosed := false, fpReadOnly := true,
              fpPos := 0 }, none)
  else (f, some .valueError)

/-- `_write_headers`: closed/mode guards, then seek to 0 and write
magic, version bytes, and the two int64 header fields (a write on a
read-only descriptor raises). -/
def File.write_headers (f : File) : File × Option PyErr :=
  if f.fpClosed then (f, some .ioError)
  else if f.mode ≠ "w" then (f, some .ioError)
  else if f.fpReadOnly then (f, some .ioError)
  else
    let hdr := MAGIC_BYTES ++ version_to_bytes f.version
      ++ int64ToBytes f.metaOffset ++ int64ToBytes f.metaLength
    ({ f with disk := writeAt f.disk 0 hdr, fpPos := hdr.length }, none)

/-- `np.frombuffer(b, dtype=np.int64)[0]`: `ValueError` unless the
buffer length is a multiple of 8, `IndexError` on an empty buffer
(short reads at the end of a truncated file produce these). -/
def frombufferFirstInt64 (bs : Bytes) : Except PyErr Int := do
  match (← frombufferInt64 bs) with
  | [] => .error .indexError
  | x :: _ => .ok x

/-- The pure header parse performed by `_read_headers`: check the
magic bytes, then read the version bytes and the two int64 fields from
their fixed offsets. -/
def readHeaders (disk : Bytes) : Except PyErr (Version × Int × Int) :=
  if readAt disk 0 NUM_BYTES_MAGIC_BYTES ≠ MAGIC_BYTES then .error .valueError
  else do
    let v := version_of_bytes (readAt disk NUM_BYTES_MAGIC_BYTES NUM_BYTES_VERSION)
    let mo ← frombufferFirstInt64 (readAt disk 6 NUM_BYTES_METADATA_OFFSET)
    let ml ← frombufferFirstInt64 (readAt disk 14 NUM_BYTES_METADATA_LENGTH)
    .ok (v, mo, ml)

/-- `_read_headers`: guards, then the parse, storing the fields. -/
def File.read_headers (f : File) : File × Option PyErr :=
  if f.fpClosed then (f, some .ioError)
  else if f.mode ≠ "r" then (f, some .ioError)
  else
    match readHeaders f.disk with
    | .error e => (f, some e)
    | .ok (v, mo, ml) =>
        ({ f with version := v, metaOffset := mo, metaLength := ml,
                  fpPos := ITEM_START }, none)

/-- `_init_data`: write mode writes a provisional header (zero offset
and length) and installs an empty `MetadataWriter` with the write
cursor just past the header; read mode parses the header, seeks to the
index, reads it and deserialises the `MetadataReader`; other modes
raise `ValueError`. -/
def File.init_data (f : File) : File × Option PyErr :=
  if f.mode = "w" then
    let f := { f with version := srcVersion, metaOffset := 0, metaLength := 0 }
    match f.write_headers with
    | (f', some e) => (f', some e)
    | (f', none) =>
        ({ f' with metaS := .w mkMetadataWriter,
                   itemOffset := some ITEM_START }, none)
  else if f.mode = "r" then
    match f.read_headers with
    | (f', some e) => (f', some e)
    | (f', none) =>
        if f'.metaOffset < 0 then (f', some .ioError)
        else
          let blob :=
            if f'.metaLength < 0 then f'.disk.drop f'.metaOffset.toNat
            else readAt f'.disk f'.metaOffset.toNat f'.metaLength.toNat
          match MetadataReader.frombuffer blob with
          | .error e => (f', some e)
          | .ok mr =>
              ({ f' with metaS := .r mr,
                         fpPos := f'.metaOffset.toNat + blob.length }, none)
  else (f, some .valueError)

/-- `_flush`: guards, then serialise the metadata (this is the first
statement — it fails before anything is written when the metadata
cannot serialise), record the trailer offset and length, rewrite the
header in place, and write the trailer at the write cursor. -/
def File.flush (f : File) : File × Option PyErr :=
  if f.fpClosed then (f, some .ioError)
  else if f.mode ≠ "w" then (f, some .ioError)
  else
    match f.metaS.tobytes with
    | .error e => (f, some e)
    | .ok blob =>
        let f1 := { f with metaOffset := ((f.itemOffset.getD 0 : Nat) : Int),
                           metaLength := (blob.length : Int) }
        match f1.write_headers with
        | (f2, some e) => (f2, some e)
        | (f2, none) =>
            ({ f2 with disk := writeAt f2.disk (f.itemOffset.getD 0) blob,
                       fpPos := f.itemOffset.getD 0 + blob.length }, none)

/-- `close`: a no-op when `_fp` is `None` or already closed; in the
current `'w'` mode it flushes first (an exception from `_flush`
propagates before `self._fp.close()` runs); finally the descriptor is
closed. -/
def File.close (f : File) : File × Option PyErr :=
  if ¬f.fpSome then (f, none)
  else if f.fpClosed then (f, none)
  else if f.mode = "w" then
    match f.flush with
    | (f', some e) => (f', some e)
    | (f', none) => ({ f' with fpClosed := true }, none)
  else ({ f with fpClosed := true }, none)

/-- `File.open` (named `openPath` here, `open` being reserved in
Lean): assign the new mode first, then close any prior handle
(`close` consults the just-assigned mode), then open a fresh OS
descriptor on the path.  It does not re-run `_init_data`. -/
def File.openPath (f : File) (mode : String) : File × Option PyErr :=
  let f1 := { f with mode := mode }
  if f1.fpSome then
    match f1.close with
    | (f2, some e) => (f2, some e)
    | (f2, none) => osOpen f2 mode
  else osOpen f1 mode

/-- `File.__init__`: store the path and mode, `open`, `_init_data`.
`disk` is the file currently at the path. -/
def mkFile (disk : Bytes) (mode : String) : File × Option PyErr :=
  match (blankFile disk).openPath mode with
  | (f, some e) => (f, some e)
  | (f, none) => f.init_data

/-- The entry loop of `File.add_item`: serialize each array (a
`TypeError` from an unsupported element type aborts the loop, keeping
the payloads already written), seek to the running local cursor and
write the payload (failing on a read-only descriptor), and collect the
`{'offset', 'size', 'dtype'}` record for each key.  Returns either the
new disk, descriptor position, final cursor, and collected metadata,
or the partially-written disk, descriptor position, and the error.
The source's checks that keys are `str` and values are `ndarray` are
structural here. -/
def serializeEntries (ro : Bool) (disk : Bytes) (pos cursor : Nat) :
    List (String × NpArray) →
    (Bytes × Nat × Nat × List (String × ArrayMeta)) ⊕ (Bytes × Nat × PyErr)
  | [] => .inl (disk, pos, cursor, [])
  | (k, a) :: rest =>
      match serialize_array a with
      | .error e => .inr (disk, pos, e)
      | .ok (bs, t) =>
          if ro then .inr (disk, cursor, .ioError)
          else
            match serializeEntries ro (writeAt disk cursor bs)
                (cursor + bs.length) (cursor + bs.length) rest with
            | .inl (d, p, c, mi) => .inl (d, p, c, (k, ⟨cursor, bs.length, t⟩) :: mi)
            | .inr r => .inr r

/-- `File.add_item`: guards, the entry loop, then hand the collected
metadata to the index and only then commit the advanced cursor to
`self._item_offset` — on any failure the cursor field keeps its old
value, although the bytes already written stay on disk. -/
def File.add_item (f : File) (data : List (String × NpArray)) :
    File × Option PyErr :=
  if ¬f.fpSome then (f, some .ioError)
  else if f.fpClosed then (f, some .ioError)
  else if f.mode ≠ "w" then (f, some .ioError)
  else
    match serializeEntries f.fpReadOnly f.disk f.fpPos (f.itemOffset.getD 0) data with
    | .inr (d, p, e) => ({ f with disk := d, fpPos := p }, some e)
    | .inl (d, p, c, mi) =>
        match f.metaS with
        | .w mw =>
            match mw.add_item mi with
            | (mw', none) =>
                ({ f with disk := d, fpPos := p, metaS := .w mw',
                          itemOffset := some c }, none)
            | (mw', some e) =>
                ({ f with disk := d, fpPos := p, metaS := .w mw' }, some e)
        | _ => ({ f with disk := d, fpPos := p }, some .attributeError)

/-- `File.get_item`: after the descriptor, mode, and range guards the
body iterates `self._metadata.array_keys` — but neither
`MetadataReader` nor any other class of the package defines an
attribute `array_keys`, so every call that reaches the loop raises
`AttributeError`. -/
def File.get_item (f : File) (item : Nat) :
    Except PyErr (List (String × NpArray)) :=
  if ¬f.fpSome then .error .ioError
  else if f.fpClosed then .error .ioError
  else if f.mode ≠ "r" then .error .ioError
  else if f.metaS.len ≤ item then .error .indexError
  else .error .attributeError

/-- `File.get_array(item, key)` — the source signature has no
`type_override` parameter.  Guards, key presence, then seek to the
recorded offset, read the recorded size, and decode with the stored
per-key type tag.  (With a stale `MetadataWriter` left by re-opening a
write handle for read, the membership test or the `get` attribute
lookup raises instead.) -/
def File.get_array (f : File) (item : Nat) (key : String) :
    Except PyErr NpArray :=
  if ¬f.fpSome then .error .ioError
  else if f.fpClosed then .error .ioError
  else if f.mode ≠ "r" then .error .ioError
  else if f.metaS.len ≤ item then .error .indexError
  else
    match f.metaS with
    | .r mr =>
        match List.lookup key mr.metadata with
        | none => .error .keyError
        | some cm => do
            let off ← mr.get item key "offset"
            let sz ← mr.get item key "size"
            if off < 0 then .error .ioError
            else
              let payload :=
                if sz < 0 then f.disk.drop off.toNat
                else readAt f.disk off.toNat sz.toNat
              deserialize_array payload cm.dtype
    | .w mw =>
        match mw.metadata with
        | none => .error .typeError
        | some md =>
            match List.lookup key md with
            | none => .error .keyError
            | some _ => .error .attributeError
    | .noneM => .error .typeError

/-- `num_items`: `len(self._metadata)` (`TypeError` on `None`). -/
def File.num_items (f : File) : Except PyErr Nat :=
  match f.metaS with
  | .noneM => .error .typeError
  | m => .ok m.len

/-- Modelled from the spec: the specified
`get_array(handle, index, key, type_override?)` operation, which the
source does not implement — "`type_override`, if supplied, replaces
the stored type tag for decoding", with the stored tag used when it is
absent.  Identical to the read path of `File.get_array` except for the
tag passed to the codec. -/
def get_array_spec (f : File) (item : Nat) (key : String)
    (type_override : Option String) : Except PyErr NpArray :=
  if ¬f.fpSome then .error .ioError
  else if f.fpClosed then .error .ioError
  else if f.mode ≠ "r" then .error .ioError
  else if f.metaS.len ≤ item then .error .indexError
  else
    match f.metaS with
    | .r mr =>
        match List.lookup key mr.metadata with
        | none => .error .keyError
        | some cm => do
            let off ← mr.get item key "offset"
            let sz ← mr.get item key "size"
            if off < 0 then .error .ioError
            else
              let payload :=
                if sz < 0 then f.disk.drop off.toNat
                else readAt f.disk off.toNat sz.toNat
              deserialize_array payload (type_override.getD cm.dtype)
    | _ => .error .typeError

/-! ## Helpers for the stated properties -/

/-- All `(offset, size)` pairs recorded in the index, one per
(item, key) entry: for each key, its offsets column zipped with its
sizes column. -/
def MetadataWriter.recordedRegions (w : MetadataWriter) : List (Nat × Nat) :=
  match w.metadata with
  | none => []
  | some md =>
      (md.map (fun e =>
        (w.data.getD e.2.offsetCol []).zip (w.data.getD e.2.sizeCol []))).flatten

/-- Two byte regions `(offset, size)` do not overlap. -/
def regionsDisjoint (a b : Nat × Nat) : Prop :=
  a.1 + a.2 ≤ b.1 ∨ b.1 + b.2 ≤ a.1

instance : ∀ a b, Decidable (regionsDisjoint a b) := fun _ _ => by
  unfold regionsDisjoint; infer_instance

/-- Run a sequence of `add_item` calls, stopping at the first
failure. -/
def writeItems (f : File) : List (List (String × NpArray)) → File × Option PyErr
  | [] => (f, none)
  | it :: rest =>
      match f.add_item it with
      | (f', none) => writeItems f' rest
      | (f', some e) => (f', some e)

instance {α β : Type} [DecidableEq α] [DecidableEq β] :
    DecidableEq (Except α β) := fun a b =>
  match a, b with
  | .ok x, .ok y =>
      if h : x = y then .isTrue (by rw [h]) else .isFalse (by simp [h])
  | .error x, .error y =>
      if h : x = y then .isTrue (by rw [h]) else .isFalse (by simp [h])
  | .ok _, .error _ => .isFalse (by simp)
  | .error _, .ok _ => .isFalse (by simp)

/-! ## Concrete scenario for the round-trip claim

One item `{label: int32 array [4]}` (numpy `int32` has `dtype.num = 5`;
the little-endian buffer of the single element `4` is
`[4, 0, 0, 0]`), written to a fresh file which is then closed and
re-opened for read. -/

def c1item : List (String × NpArray) := [("label", .numeric 5 [4, 0, 0, 0])]

def c1f0 : File := (mkFile [] "w").1

def c1f1 : File := (c1f0.add_item c1item).1

def c1disk : Bytes := c1f1.close.1.disk

def c1rf : File := (mkFile c1disk "r").1

/-! ## Concrete states for the other claims -/

/-- A fresh write-mode handle (used by the partial-write scenario). -/
def c4base : File := (mkFile [] "w").1

/-- The handle after one successful item `{a: uint8 array [7]}`
(numpy `uint8` has `dtype.num = 2`). -/
def c4f1 : File := (c4base.add_item [("a", .numeric 2 [7])]).1

/-- A fresh handle after one successful item, for the schema claim. -/
def c5f : File := ((mkFile [] "w").1.add_item [("a", .numeric 2 [7])]).1

/-- A small deserialised index: one key `a` with stored tag `uint8`,
offset 22 and size 4 for the single item. -/
def c8mr : MetadataReader := ⟨[("a", ⟨0, 1, "uint8"⟩)], ⟨2, 1, [22, 4]⟩, 1⟩

/-- A read-mode handle over a 26-byte file whose payload bytes
22..25 are `[1, 2, 3, 4]`. -/
def c8f : File :=
  { blankFile (List.replicate 22 0 ++ [1, 2, 3, 4]) with
      mode := "r", fpSome := true, fpReadOnly := true, metaS := .r c8mr }

/-- A serialised-index dict whose decoded columns have unequal
lengths: key `a` has one item, key `b` has two. -/
def c3dict : List BlobEntry :=
  [("a", int64ToBytes 30, int64ToBytes 1, "int8"),
   ("b", int64ToBytes 31 ++ int64ToBytes 32,
         int64ToBytes 1 ++ int64ToBytes 1, "int8")]

/-- The serialised form of `c3dict`. -/
def c3blob : Bytes := bsonDumps c3dict

/-- A write-mode handle holding a buffered (empty) index. -/
def c10w : File :=
  { blankFile [5, 6] with
      mode := "w", fpSome := true, metaS := .w mkMetadataWriter,
      itemOffset := some ITEM_START }

/-- A read-mode handle holding a deserialised (empty) index. -/
def c10r : File :=
  { blankFile [5, 6] with
      mode := "r", fpSome := true, fpReadOnly := true,
      metaS := .r ⟨[], ⟨0, 0, []⟩, 0⟩ }

/-- A write-mode handle with nonzero header fields, for the header
round trip. -/
def c6f : File :=
  { blankFile [] with
      mode := "w", fpSome := true, version := ⟨0, 3, 0⟩,
      metaOffset := 100, metaLength := 7 }

/-- Structural shape of the key dict and columns maintained by the
writer: distinct keys, and the key at position `j` owns columns `2*j`
and `2*j + 1` of a column list of length twice the key count. -/
def MdStruct (md : List (String × ColMeta)) (data : List (List Nat)) : Prop :=
  (md.map Prod.fst).Nodup ∧ data.length = 2 * md.length ∧
  ∀ j, (hj : j < md.length) →
    (md.get ⟨j, hj⟩).2.offsetCol = 2 * j ∧
    (md.get ⟨j, hj⟩).2.sizeCol = 2 * j + 1

/-- The metadata component of the write invariant: the key dict (once
established) has distinct keys, the key at position `j` owns columns
`2*j` and `2*j + 1`, every column has one entry per item, and all
recorded payload regions lie between the end of the header and the
write cursor `c` without overlapping. -/
def MInv (mw : MetadataWriter) (c : Nat) : Prop :=
  (∀ col ∈ mw.data, col.length = mw.length) ∧
  (mw.length = 0 → mw.metadata = none ∧ mw.data = []) ∧
  (∀ md, mw.metadata = some md → MdStruct md mw.data) ∧
  (∀ r ∈ mw.recordedRegions, ITEM_START ≤ r.1 ∧ r.1 + r.2 ≤ c) ∧
  mw.recordedRegions.Pairwise regionsDisjoint

/-- Closed form of the key dict built by `_init_metadata`: the key at
position `j` receives column indices `startCol + 2*j` and
`startCol + 2*j + 1` (the source builds this with a running
`len(self.data)`); proved equal to `initMetadataCore` below. -/
def initSpecMd (startCol : Nat) :
    List (String × ArrayMeta) → List (String × ColMeta)
  | [] => []
  | e :: rest =>
      (e.1, ⟨startCol, startCol + 1, e.2.dtype⟩) :: initSpecMd (startCol + 2) rest

/-- The write invariant of a reachable write-mode handle. -/
def WInv (f : File) : Prop :=
  f.mode = "w" ∧ f.fpSome = true ∧ f.fpClosed = false ∧
  f.fpReadOnly = false ∧
  ∃ mw c, f.metaS = .w mw ∧ f.itemOffset = some c ∧
    ITEM_START ≤ c ∧ c ≤ f.disk.length ∧ MInv mw c

/-! # Theorems -/

/-! ## Byte-packing lemmas -/

theorem leBytes_length (k n : Nat) : (leBytes k n).length = k := by
  induction k generalizing n with
  | zero => rfl
  | succ k ih => simp [leBytes, ih]

theorem leVal_leBytes (k n : Nat) (h : n < 256 ^ k) :
    leVal (leBytes k n) = n := by
  induction k generalizing n with
  | zero =>
      simp only [pow_zero, Nat.lt_one_iff] at h
      simp [leBytes, leVal, h]
  | succ k ih =>
      have hd : n / 256 < 256 ^ k := by
        rw [Nat.div_lt_iff_lt_mul (by norm_num)]
        calc n < 256 ^ (k + 1) := h
        _ = 256 ^ k * 256 := by rw [pow_succ]
      simp only [leBytes, leVal, ih (n / 256) hd]
      omega

theorem int64_roundtrip (i : Int) (h0 : 0 ≤ i) (h1 : i < 2 ^ 63) :
    int64OfBytes (int64ToBytes i) = i := by
  unfold int64ToBytes int64OfBytes
  have h2 : i < 2 ^ 64 := by
    have : (2 : Int) ^ 63 < 2 ^ 64 := by norm_num
    omega
  have he : i.emod (2 ^ 64) = i := Int.emod_eq_of_lt h0 h2
  rw [he]
  have hb : i.toNat < 256 ^ 8 := by
    have h64 : (256 : Nat) ^ 8 = 2 ^ 64 := by norm_num
    omega
  rw [leVal_leBytes 8 i.toNat hb]
  have hlt : i.toNat < 2 ^ 63 := by omega
  simp only [hlt, if_true]
  omega

theorem chunks8_leBytes8 (n : Nat) : chunks8 (leBytes 8 n) = [leBytes 8 n] := rfl

theorem frombufferFirst_int64 (i : Int) (h0 : 0 ≤ i) (h1 : i < 2 ^ 63) :
    frombufferFirstInt64 (int64ToBytes i) = .ok i := by
  unfold frombufferFirstInt64 frombufferInt64
  have hl : (int64ToBytes i).length = 8 := leBytes_length 8 _
  rw [hl]
  have hc : chunks8 (int64ToBytes i) = [int64ToBytes i] := chunks8_leBytes8 _
  simp only [hc, List.map_cons, List.map_nil, int64_roundtrip i h0 h1,
    Nat.reduceMod, reduceIte]
  rfl

/-! ## File byte lemmas -/

theorem writeAt_length (file : Bytes) (pos : Nat) (data : Bytes) :
    (writeAt file pos data).length = max file.length (pos + data.length) := by
  simp [writeAt]
  omega

theorem writeAt_append (file : Bytes) (data : Bytes) :
    writeAt file file.length data = file ++ data := by
  simp [writeAt, List.drop_eq_nil_of_le]

/-! ## C1 -/

/-- C1: the round-trip claim fails against the code as a code bug —
after a successful write of one item, a close, and a re-open for read,
`get_item(0)` raises `AttributeError` because `File.get_item` iterates
`self._metadata.array_keys`, an attribute no class of the package
defines.  The write, the close, the re-open, `num_items`, and the
per-key `get_array` round trip of the same payload all succeed, so the
`AttributeError` is exactly the `array_keys` slip. -/
theorem c1_get_item_attribute_error :
    (mkFile [] "w").2 = none ∧
    (c1f0.add_item c1item).2 = none ∧
    c1f1.close.2 = none ∧
    (mkFile c1disk "r").2 = none ∧
    c1rf.num_items = .ok 1 ∧
    c1rf.get_item 0 = .error .attributeError ∧
    c1rf.get_array 0 "label" = .ok (.numeric 5 [4, 0, 0, 0]) := by decide

/-! ## C2 -/

/-- C2: the supported-type table as written is a code bug: the
comprehension iterates the dict itself, so the int keys fail to unpack
and the module raises `TypeError` at import time.  The intended table
(built from `dtypes.items()`) is indeed the exact inverse of `dtypes`
in both directions, and `deserialize_array` rejects every type tag
absent from it with the unsupported-type error. -/
theorem c2_supported_type_table :
    dtype_names_as_written = .error .typeError ∧
    (∀ p ∈ dtypes, List.lookup p.2 dtype_names = some p.1) ∧
    (∀ q ∈ dtype_names, List.lookup q.2 dtypes = some q.1) ∧
    (∀ (bs : Bytes) (t : String), List.lookup t dtype_names = none →
      deserialize_array bs t = .error .typeError) := by
  refine ⟨by decide, by decide, by decide, ?_⟩
  intro bs t h
  simp [deserialize_array, h]

theorem c2_witness : deserialize_array [0] "complex64" = .error .typeError :=
  c2_supported_type_table.2.2.2 [0] "complex64" (by decide)

/-! ## C9 -/

/-- C9: closing a write-mode file to which no item was ever added does
not produce a valid empty container: `close` runs `_flush`, which calls
`MetadataWriter.tobytes` while `self.metadata` is still `None`, so the
call fails with `AttributeError` and nothing is written (the disk still
holds only the provisional header). -/
theorem c9_close_empty_write_fails :
    (mkFile [] "w").2 = none ∧
    (mkFile [] "w").1.close.2 = some .attributeError ∧
    (mkFile [] "w").1.close.1.disk = (mkFile [] "w").1.disk := by decide

/-! ## C4 -/

theorem add_item_fail_preserves_cursor (f : File)
    (data : List (String × NpArray)) :
    (f.add_item data).2 = none ∨ (f.add_item data).1.itemOffset = f.itemOffset := by
  unfold File.add_item
  split
  · exact .inr rfl
  split
  · exact .inr rfl
  split
  · exact .inr rfl
  split
  · exact .inr rfl
  split
  · split
    · exact .inl rfl
    · exact .inr rfl
  · exact .inr rfl

/-- C4 (amended): a failed `add_item` leaves the `File` write cursor
`_item_offset` unchanged — the advanced cursor is committed only after
the index accepts the whole item, so the payload bytes already written
for the rejected call stay on disk (and the OS descriptor position
moves past them) but the cursor does not reflect them; the next
successful `add_item` overwrites them. -/
theorem c4_failed_add_item_cursor_unchanged (f : File)
    (data : List (String × NpArray)) (e : PyErr)
    (h : (f.add_item data).2 = some e) :
    (f.add_item data).1.itemOffset = f.itemOffset := by
  rcases add_item_fail_preserves_cursor f data with h0 | h0
  · rw [h0] at h
    cases h
  · exact h0

theorem c4_witness :
    (c4f1.add_item [("b", .numeric 2 [9])]).2 = some .keyError ∧
    (c4f1.add_item [("b", .numeric 2 [9])]).1.itemOffset = c4f1.itemOffset :=
  ⟨by decide,
   c4_failed_add_item_cursor_unchanged c4f1 [("b", .numeric 2 [9])]
     .keyError (by decide)⟩

/-- C4 (counterexample): after one committed item the cursor is 23;
an `add_item` rejected by the index for a schema violation has already
written its one payload byte (the file grows to 24 bytes and the
descriptor position is 24), yet the write cursor stays at 23 — it is
not left advanced by the written payload as the claim states. -/
theorem c4_counterexample :
    (c4base.add_item [("a", .numeric 2 [7])]).2 = none ∧
    c4f1.itemOffset = some 23 ∧
    (c4f1.add_item [("b", .numeric 2 [9])]).2 = some .keyError ∧
    (c4f1.add_item [("b", .numeric 2 [9])]).1.disk.length = 24 ∧
    (c4f1.add_item [("b", .numeric 2 [9])]).1.fpPos = 24 ∧
    (c4f1.add_item [("b", .numeric 2 [9])]).1.itemOffset ≠ some 24 ∧
    (c4f1.add_item [("b", .numeric 2 [9])]).1.itemOffset = some 23 := by decide

theorem exceptOkBind {e a b : Type} (x : a) (f : a → Except e b) :
    (Except.ok x : Except e a) >>= f = f x := rfl

theorem exceptErrorBind {e a b : Type} (err : e) (f : a → Except e b) :
    (Except.error err : Except e a) >>= f = .error err := rfl

/-! ## C10 -/

/-- C10: `File.open` assigns the new mode before closing the prior
handle, and `close` branches on the current mode.  Hence re-opening a
write-mode handle for read closes the old descriptor without any flush
(the disk keeps its old bytes — no trailer, no final header — while
the buffered writer index merely survives in memory, never serialised),
and re-opening a read-mode handle for write enters the flush path with
the old read-only descriptor still current, which fails (the
`MetadataReader` has no `tobytes`), the error propagating out of
`open` before the descriptor is even closed. -/
theorem c10_reopen_mode_assigned_first (f g : File)
    (mwr : MetadataWriter) (mrd : MetadataReader)
    (hf1 : f.fpSome = true) (hf2 : f.fpClosed = false) (hf3 : f.mode = "w")
    (hf4 : f.metaS = .w mwr)
    (hg1 : g.fpSome = true) (hg2 : g.fpClosed = false) (hg3 : g.mode = "r")
    (hg4 : g.metaS = .r mrd) :
    ((f.openPath "r").2 = none ∧
     (f.openPath "r").1.disk = f.disk ∧
     (f.openPath "r").1.mode = "r" ∧
     (f.openPath "r").1.fpReadOnly = true ∧
     (f.openPath "r").1.metaS = .w mwr) ∧
    ((g.openPath "w").2 = some .attributeError ∧
     (g.openPath "w").1.disk = g.disk ∧
     (g.openPath "w").1.fpClosed = false) := by
  constructor
  · simp [File.openPath, File.close, osOpen, hf1, hf2, hf4]
  · simp [File.openPath, File.close, File.flush, MetaState.tobytes,
      osOpen, hg1, hg2, hg4]

theorem c10_witness :
    ((c10w.openPath "r").2 = none ∧
     (c10w.openPath "r").1.disk = c10w.disk ∧
     (c10w.openPath "r").1.mode = "r" ∧
     (c10w.openPath "r").1.fpReadOnly = true ∧
     (c10w.openPath "r").1.metaS = .w mkMetadataWriter) ∧
    ((c10r.openPath "w").2 = some .attributeError ∧
     (c10r.openPath "w").1.disk = c10r.disk ∧
     (c10r.openPath "w").1.fpClosed = false) :=
  c10_reopen_mode_assigned_first c10w c10r mkMetadataWriter
    ⟨[], ⟨0, 0, []⟩, 0⟩ rfl rfl rfl rfl rfl rfl rfl rfl

/-! ## C8 -/

/-- C8 (counterexample): the source `get_array` takes only
`(item, key)` — there is no `type_override` parameter.  On a concrete
read handle whose key `a` stores tag `uint8`, the operation the claim
describes (modelled from the spec as `get_array_spec`) returns, for
override `int32`, a reinterpreted `int32` array that the source
function, agreeing with the spec only in the no-override case, cannot
produce. -/
theorem c8_counterexample :
    c8f.get_array 0 "a" = .ok (.numeric 2 [1, 2, 3, 4]) ∧
    get_array_spec c8f 0 "a" none = c8f.get_array 0 "a" ∧
    get_array_spec c8f 0 "a" (some "int32") = .ok (.numeric 5 [1, 2, 3, 4]) ∧
    get_array_spec c8f 0 "a" (some "int32") ≠ c8f.get_array 0 "a" := by decide

/-- C8 (amended): `get_array` has no `type_override` argument; for
every open read handle, valid item index, and present key it decodes
the payload bytes read from the recorded offset and size using the
stored per-key type tag, always. -/
theorem c8_get_array_uses_stored_tag (f : File) (mr : MetadataReader)
    (item : Nat) (key : String) (cm : ColMeta) (off sz : Int)
    (hfp : f.fpSome = true) (hcl : f.fpClosed = false) (hm : f.mode = "r")
    (hms : f.metaS = .r mr) (hlen : item < mr.length)
    (hk : List.lookup key mr.metadata = some cm)
    (ho : mr.get item key "offset" = .ok off)
    (hs : mr.get item key "size" = .ok sz)
    (hoff : 0 ≤ off) (hsz : 0 ≤ sz) :
    f.get_array item key =
      deserialize_array (readAt f.disk off.toNat sz.toNat) cm.dtype := by
  have hnlt : ¬off < 0 := not_lt.mpr hoff
  have hnsz : ¬sz < 0 := not_lt.mpr hsz
  simp [File.get_array, hfp, hcl, hm, hms, MetaState.len,
    Nat.not_le.mpr hlen, hk, ho, hs, hnlt, hnsz, exceptOkBind]

theorem c8_witness :
    c8f.get_array 0 "a" =
      deserialize_array (readAt c8f.disk 22 4) "uint8" :=
  c8_get_array_uses_stored_tag c8f c8mr 0 "a" ⟨0, 1, "uint8"⟩ 22 4
    rfl rfl rfl rfl (by decide) (by decide) (by decide) (by decide)
    (by decide) (by decide)

/-! ## C3 -/

set_option maxRecDepth 4000 in
/-- C3 (counterexample): a serialised index whose keys decode to
columns of unequal lengths is not rejected with a dedicated
index-corruption error; the deserialisation fails only inside the
stacking of the column arrays, with a generic `ValueError`. -/
theorem c3_counterexample :
    MetadataReader.frombuffer c3blob = .error .valueError ∧
    MetadataReader.frombuffer c3blob ≠ .error .indexCorrupt := by decide

theorem frombufferInt64_ok_length (bs : Bytes) (h : bs.length % 8 = 0) :
    ∃ col, frombufferInt64 bs = .ok col ∧ col.length = bs.length / 8 := by
  refine ⟨(chunks8 bs).map int64OfBytes, by simp [frombufferInt64, h], ?_⟩
  simp only [List.length_map]
  induction bs using chunks8.induct with
  | case1 b0 b1 b2 b3 b4 b5 b6 b7 rest ih =>
      have h8 : rest.length % 8 = 0 := by
        simp at h
        omega
      simp [chunks8, ih h8]
      simp at h ⊢
      omega
  | case2 bs hshape =>
      have : bs.length < 8 := by
        match bs, hshape with
        | [], _ => simp
        | [_], _ => simp
        | [_, _], _ => simp
        | [_, _, _], _ => simp
        | [_, _, _, _], _ => simp
        | [_, _, _, _, _], _ => simp
        | [_, _, _, _, _, _], _ => simp
        | [_, _, _, _, _, _, _], _ => simp
        | b0 :: b1 :: b2 :: b3 :: b4 :: b5 :: b6 :: b7 :: rest, hsh =>
            exact absurd rfl (hsh b0 b1 b2 b3 b4 b5 b6 b7 rest)
      have hz : bs.length = 0 := by omega
      rw [List.length_eq_zero] at hz
      subst hz
      simp [chunks8]

theorem readerColumns_ok (d : List BlobEntry)
    (h : ∀ e ∈ d, e.2.1.length % 8 = 0 ∧ e.2.2.1.length % 8 = 0) :
    ∃ md cols, readerColumns d = .ok (md, cols) ∧
      cols.map List.length =
        d.flatMap (fun e => [e.2.1.length / 8, e.2.2.1.length / 8]) := by
  induction d with
  | nil => exact ⟨[], [], rfl, rfl⟩
  | cons e rest ih =>
      obtain ⟨h1, h2⟩ := h e (by simp)
      obtain ⟨col1, hc1, hl1⟩ := frombufferInt64_ok_length _ h1
      obtain ⟨col2, hc2, hl2⟩ := frombufferInt64_ok_length _ h2
      obtain ⟨md, cols, hrc, hmap⟩ := ih (fun e' he' => h e' (by simp [he']))
      refine ⟨(e.1, ⟨0, 1, e.2.2.2⟩) :: md, col1 :: col2 :: cols, ?_, ?_⟩
      · simp [readerColumns, hc1, hc2, hrc, exceptOkBind]
      · simp [hl1, hl2, hmap]

theorem mkMpNdArray_ragged (c0 : List Int) (rest : List (List Int))
    (r : List Int) (hr : r ∈ rest) (hne : r.length ≠ c0.length) :
    mkMpNdArray (c0 :: rest) = .error .valueError := by
  have hall : ¬(rest.all (fun c => c.length = c0.length) = true) := by
    simp only [List.all_eq_true, decide_eq_true_eq, not_forall]
    exact ⟨r, hr, hne⟩
  simp [mkMpNdArray, hall]

/-- C3 (amended): `MetadataReader.frombuffer` performs no cross-key
length check: it sets `item_count` from the first decoded column only,
so a blob whose keys decode to columns of unequal lengths is not
detected by any dedicated index-corruption check — the deserialisation
fails only incidentally while the column arrays are stacked, with a
generic `ValueError`. -/
theorem c3_frombuffer_no_length_check (bs : Bytes) (d : List BlobEntry)
    (hload : bsonLoads bs = some d)
    (hdiv : ∀ e ∈ d, e.2.1.length % 8 = 0 ∧ e.2.2.1.length % 8 = 0)
    (e1 e2 : BlobEntry) (h1 : e1 ∈ d) (h2 : e2 ∈ d)
    (hne : e1.2.1.length ≠ e2.2.1.length) :
    MetadataReader.frombuffer bs = .error .valueError := by
  obtain ⟨md, cols, hrc, hmap⟩ := readerColumns_ok d hdiv
  obtain ⟨e0, d', hd⟩ : ∃ e0 d', d = e0 :: d' := by
    cases d with
    | nil => cases h1
    | cons a l => exact ⟨a, l, rfl⟩
  obtain ⟨c0, cols', hcols⟩ : ∃ c0 cols', cols = c0 :: cols' := by
    cases cols with
    | nil =>
        have := congrArg List.length hmap
        simp [hd] at this
    | cons a l => exact ⟨a, l, rfl⟩
  have hc0len : c0.length = e0.2.1.length / 8 := by
    rw [hd, hcols] at hmap
    simpa using congrArg (fun l => l.getD 0 0) hmap
  have hmem1 : e1.2.1.length / 8 ∈ cols.map List.length := by
    rw [hmap]
    exact List.mem_flatMap.mpr ⟨e1, h1, by simp⟩
  have hmem2 : e2.2.1.length / 8 ∈ cols.map List.length := by
    rw [hmap]
    exact List.mem_flatMap.mpr ⟨e2, h2, by simp⟩
  have hdivne : e1.2.1.length / 8 ≠ e2.2.1.length / 8 := by
    obtain ⟨ha, _⟩ := hdiv e1 h1
    obtain ⟨hb, _⟩ := hdiv e2 h2
    omega
  have hbad : ∃ r ∈ cols', r.length ≠ c0.length := by
    rcases Decidable.em (e1.2.1.length / 8 = c0.length) with hca | hca
    · obtain ⟨r, hrm, hrl⟩ := List.mem_map.mp hmem2
      have hrne : r.length ≠ c0.length := by rw [hrl]; omega
      rw [hcols] at hrm
      rcases List.mem_cons.mp hrm with hr0 | hr0
      · exact absurd (hr0 ▸ hrne) (by simp)
      · exact ⟨r, hr0, hrne⟩
    · obtain ⟨r, hrm, hrl⟩ := List.mem_map.mp hmem1
      have hrne : r.length ≠ c0.length := by rw [hrl]; exact hca
      rw [hcols] at hrm
      rcases List.mem_cons.mp hrm with hr0 | hr0
      · exact absurd (hr0 ▸ hrne) (by simp)
      · exact ⟨r, hr0, hrne⟩
  obtain ⟨r, hrm, hrne⟩ := hbad
  have hmk : mkMpNdArray cols = .error .valueError := by
    rw [hcols]
    exact mkMpNdArray_ragged c0 cols' r hrm hrne
  unfold MetadataReader.frombuffer
  rw [hload]
  simp [hrc, hmk, exceptOkBind, exceptErrorBind]

set_option maxRecDepth 4000 in
theorem c3_witness :
    MetadataReader.frombuffer c3blob = .error .valueError :=
  c3_frombuffer_no_length_check c3blob c3dict (by decide) (by decide)
    ("a", int64ToBytes 30, int64ToBytes 1, "int8")
    ("b", int64ToBytes 31 ++ int64ToBytes 32,
      int64ToBytes 1 ++ int64ToBytes 1, "int8")
    (by decide) (by decide) (by decide)

/-! ## C6 -/

theorem readHeaders_of_layout (v : Version) (mo ml : Int) (rest : Bytes)
    (hv1 : v.major < 256) (hv2 : v.minor < 256) (hv3 : v.patch < 256)
    (ho1 : 0 ≤ mo) (ho2 : mo < 2 ^ 63) (hl1 : 0 ≤ ml) (hl2 : ml < 2 ^ 63) :
    readHeaders (MAGIC_BYTES ++ (version_to_bytes v ++
        (int64ToBytes mo ++ (int64ToBytes ml ++ rest)))) =
      .ok (v, mo, ml) := by
  have hvb : version_to_bytes v = [0, v.major, v.minor, v.patch] := by
    simp [version_to_bytes, Nat.mod_eq_of_lt hv1, Nat.mod_eq_of_lt hv2,
      Nat.mod_eq_of_lt hv3]
  have lA : MAGIC_BYTES.length = NUM_BYTES_MAGIC_BYTES := rfl
  have lB : (version_to_bytes v).length = NUM_BYTES_VERSION := by
    rw [hvb]; rfl
  have lC : (int64ToBytes mo).length = 8 := leBytes_length 8 _
  have lD : (int64ToBytes ml).length = 8 := leBytes_length 8 _
  have e0 : readAt (MAGIC_BYTES ++ (version_to_bytes v ++
      (int64ToBytes mo ++ (int64ToBytes ml ++ rest)))) 0
      NUM_BYTES_MAGIC_BYTES = MAGIC_BYTES := by
    unfold readAt
    rw [List.drop_zero, ← lA, List.take_left]
  have e1 : readAt (MAGIC_BYTES ++ (version_to_bytes v ++
      (int64ToBytes mo ++ (int64ToBytes ml ++ rest))))
      NUM_BYTES_MAGIC_BYTES NUM_BYTES_VERSION = version_to_bytes v := by
    unfold readAt
    rw [← lA, List.drop_left, ← lB, List.take_left]
  have e2 : readAt (MAGIC_BYTES ++ (version_to_bytes v ++
      (int64ToBytes mo ++ (int64ToBytes ml ++ rest)))) 6
      NUM_BYTES_METADATA_OFFSET = int64ToBytes mo := by
    unfold readAt
    rw [← List.append_assoc]
    have l6 : (MAGIC_BYTES ++ version_to_bytes v).length = 6 := by
      simp [lB.trans rfl]
      rfl
    rw [← l6, List.drop_left,
      show NUM_BYTES_METADATA_OFFSET = (int64ToBytes mo).length from lC.symm,
      List.take_left]
  have e3 : readAt (MAGIC_BYTES ++ (version_to_bytes v ++
      (int64ToBytes mo ++ (int64ToBytes ml ++ rest)))) 14
      NUM_BYTES_METADATA_LENGTH = int64ToBytes ml := by
    unfold readAt
    rw [← List.append_assoc, ← List.append_assoc]
    have l14 : (MAGIC_BYTES ++ version_to_bytes v ++ int64ToBytes mo).length
        = 14 := by
      simp [lC]
      rw [hvb]
      rfl
    rw [← l14, List.drop_left,
      show NUM_BYTES_METADATA_LENGTH = (int64ToBytes ml).length from lD.symm,
      List.take_left]
  unfold readHeaders
  rw [e0, e1, e2, e3]
  simp only [ne_eq, not_true_eq_false, if_false,
    frombufferFirst_int64 mo ho1 ho2, frombufferFirst_int64 ml hl1 hl2,
    exceptOkBind]
  rw [hvb]
  rfl

/-- C6: the write path and the read path agree on one header layout:
magic at offset 0, then the 4 version bytes with a zero reserved
leading byte, then `index_offset` and `index_length` as 8-byte
little-endian signed integers; the first item payload begins at byte
22 (`ITEM_START`); and a header written by `_write_headers` is parsed
back by `_read_headers` into the same version, offset, and length. -/
theorem c6_header_layout_roundtrip (f : File)
    (hcl : f.fpClosed = false) (hm : f.mode = "w") (hro : f.fpReadOnly = false)
    (hv1 : f.version.major < 256) (hv2 : f.version.minor < 256)
    (hv3 : f.version.patch < 256)
    (ho1 : 0 ≤ f.metaOffset) (ho2 : f.metaOffset < 2 ^ 63)
    (hl1 : 0 ≤ f.metaLength) (hl2 : f.metaLength < 2 ^ 63) :
    f.write_headers.2 = none ∧
    ITEM_START = 22 ∧
    f.write_headers.1.disk =
      MAGIC_BYTES ++ (version_to_bytes f.version ++
        (int64ToBytes f.metaOffset ++
          (int64ToBytes f.metaLength ++ f.disk.drop 22))) ∧
    readHeaders f.write_headers.1.disk =
      .ok (f.version, f.metaOffset, f.metaLength) := by
  have hdisk : f.write_headers.1.disk =
      MAGIC_BYTES ++ (version_to_bytes f.version ++
        (int64ToBytes f.metaOffset ++
          (int64ToBytes f.metaLength ++ f.disk.drop 22))) := by
    simp only [File.write_headers, hcl, hm, hro]
    simp [writeAt]
    have h22 : MAGIC_BYTES.length + ((version_to_bytes f.version).length +
        ((int64ToBytes f.metaOffset).length +
          (int64ToBytes f.metaLength).length)) = 22 := by
      simp [MAGIC_BYTES, version_to_bytes, int64ToBytes, leBytes_length]
    rw [h22]
  refine ⟨by simp [File.write_headers, hcl, hm, hro], rfl, hdisk, ?_⟩
  rw [hdisk]
  exact readHeaders_of_layout f.version f.metaOffset f.metaLength _
    hv1 hv2 hv3 ho1 ho2 hl1 hl2

theorem c6_witness :
    c6f.write_headers.2 = none ∧
    ITEM_START = 22 ∧
    c6f.write_headers.1.disk =
      MAGIC_BYTES ++ (version_to_bytes c6f.version ++
        (int64ToBytes c6f.metaOffset ++
          (int64ToBytes c6f.metaLength ++ c6f.disk.drop 22))) ∧
    readHeaders c6f.write_headers.1.disk =
      .ok (c6f.version, c6f.metaOffset, c6f.metaLength) :=
  c6_header_layout_roundtrip c6f rfl rfl rfl (by decide) (by decide)
    (by decide) (by decide) (by decide) (by decide) (by decide)

/-! ## C5 -/

theorem serializeEntries_ok_of_serializable (disk : Bytes) (pos cursor : Nat)
    (data : List (String × NpArray))
    (h : ∀ p ∈ data, ∃ bs t, serialize_array p.2 = .ok (bs, t)) :
    ∃ d p c mi, serializeEntries false disk pos cursor data = .inl (d, p, c, mi) ∧
      mi.map Prod.fst = data.map Prod.fst := by
  induction data generalizing disk pos cursor with
  | nil => exact ⟨disk, pos, cursor, [], rfl, rfl⟩
  | cons e rest ih =>
      obtain ⟨bs, t, hser⟩ := h e (by simp)
      obtain ⟨d, p, c, mi, hrec, hkeys⟩ :=
        ih (writeAt disk cursor bs) (cursor + bs.length) (cursor + bs.length)
          (fun q hq => h q (by simp [hq]))
      refine ⟨d, p, c, (e.1, ⟨cursor, bs.length, t⟩) :: mi, ?_, by simp [hkeys]⟩
      obtain ⟨k, a⟩ := e
      simp [serializeEntries, hser, hrec]

/-- C5: after the key set is established, an `add_item` whose entry
key set differs from it (in either direction) fails with the
schema-mismatch `KeyError` raised before anything is appended, so the
index records no part of the rejected item: the metadata object — its
key dict, its columns, and hence `item_count` — is exactly unchanged,
and the write cursor stays put as well. -/
theorem c5_schema_mismatch_rejected (f : File) (mw : MetadataWriter)
    (md : List (String × ColMeta)) (data : List (String × NpArray))
    (hfp : f.fpSome = true) (hcl : f.fpClosed = false) (hm : f.mode = "w")
    (hro : f.fpReadOnly = false) (hms : f.metaS = .w mw)
    (hlen : 0 < mw.length) (hmd : mw.metadata = some md)
    (hser : ∀ p ∈ data, ∃ bs t, serialize_array p.2 = .ok (bs, t))
    (hne : keySetEq (data.map Prod.fst) (md.map Prod.fst) = false) :
    (f.add_item data).2 = some .keyError ∧
    (f.add_item data).1.metaS = f.metaS ∧
    (f.add_item data).1.itemOffset = f.itemOffset := by
  obtain ⟨d, p, c, mi, hrec, hkeys⟩ :=
    serializeEntries_ok_of_serializable f.disk f.fpPos (f.itemOffset.getD 0)
      data hser
  have hadd : mw.add_item mi = (mw, some .keyError) := by
    unfold MetadataWriter.add_item
    have hnz : ¬mw.length = 0 := by omega
    simp [hnz, hmd, hkeys, hne]
  simp [File.add_item, hfp, hcl, hm, hro, hms, hrec, hadd]

theorem c5_witness :
    (c5f.add_item [("c", .numeric 2 [9])]).2 = some .keyError ∧
    (c5f.add_item [("c", .numeric 2 [9])]).1.metaS = c5f.metaS ∧
    (c5f.add_item [("c", .numeric 2 [9])]).1.itemOffset = c5f.itemOffset :=
  c5_schema_mismatch_rejected c5f
    ⟨some [("a", ⟨0, 1, "uint8"⟩)], [[22], [1]], 1⟩
    [("a", ⟨0, 1, "uint8"⟩)] [("c", .numeric 2 [9])]
    rfl rfl rfl rfl (by decide) (by decide) (by decide)
    (by
      intro p hp
      rw [List.mem_singleton] at hp
      subst hp
      exact ⟨[9], "uint8", rfl⟩)
    (by decide)

/-! ## C7 — helper lemmas -/

theorem getD_set_self {α : Type} (l : List α) (i : Nat) (h : i < l.length)
    (x d : α) : (l.set i x).getD i d = x := by
  simp [List.getD_eq_getElem?_getD, List.getElem?_set_self, h]

theorem getD_set_ne {α : Type} (l : List α) (i j : Nat) (h : i ≠ j)
    (x d : α) : (l.set i x).getD j d = l.getD j d := by
  simp [List.getD_eq_getElem?_getD, List.getElem?_set_ne h]

theorem flatten_map_append {α β : Type} (l : List α) (g h : α → List β) :
    ((l.map (fun e => g e ++ h e)).flatten).Perm
      ((l.map g).flatten ++ (l.map h).flatten) := by
  induction l with
  | nil => simp
  | cons a rest ih =>
      simp only [List.map_cons, List.flatten_cons]
      refine (ih.append_left (g a ++ h a)).trans ?_
      simp only [List.append_assoc]
      exact List.Perm.append_left (g a) (List.perm_append_comm_assoc _ _ _)

theorem flatten_map_singleton {α β : Type} (l : List α) (h : α → β) :
    (l.map (fun e => [h e])).flatten = l.map h := by
  induction l <;> simp [*]

theorem lookup_cons_self {β : Type} (k : String) (v : β)
    (rest : List (String × β)) :
    List.lookup k ((k, v) :: rest) = some v := by
  simp [List.lookup]

theorem lookup_cons_ne {β : Type} (k k1 : String) (v : β)
    (rest : List (String × β)) (h : k ≠ k1) :
    List.lookup k ((k1, v) :: rest) = List.lookup k rest := by
  simp [List.lookup, beq_eq_false_iff_ne.mpr h]

theorem lookup_of_mem_keys {β : Type} (mi : List (String × β)) (k : String)
    (hk : k ∈ mi.map Prod.fst) : ∃ v, List.lookup k mi = some v := by
  induction mi with
  | nil => simp at hk
  | cons e rest ih =>
      obtain ⟨k1, v1⟩ := e
      rcases Decidable.em (k = k1) with he | he
      · subst he
        exact ⟨v1, lookup_cons_self _ _ _⟩
      · simp only [List.map_cons, List.mem_cons] at hk
        obtain ⟨v, hv⟩ := ih (hk.resolve_left he)
        exact ⟨v, by rw [lookup_cons_ne _ _ _ _ he]; exact hv⟩

theorem map_lookup_over_keys {β γ : Type} (mi : List (String × β))
    (h : β → γ) (d : γ) (hnd : (mi.map Prod.fst).Nodup) :
    (mi.map Prod.fst).map (fun k => (List.lookup k mi).elim d h) =
      mi.map (fun q => h q.2) := by
  induction mi with
  | nil => rfl
  | cons e rest ih =>
      obtain ⟨k, v⟩ := e
      simp only [List.map_cons, List.nodup_cons] at hnd ⊢
      have hcong : (rest.map Prod.fst).map
          (fun k' => (List.lookup k' ((k, v) :: rest)).elim d h) =
          (rest.map Prod.fst).map
            (fun k' => (List.lookup k' rest).elim d h) :=
        List.map_congr_left (fun k' hk' => by
          rw [lookup_cons_ne _ _ _ _ (fun he => hnd.1 (by rw [← he]; exact hk'))])
      rw [lookup_cons_self, hcong, ih hnd.2]
      rfl

theorem map_lookup_elim_perm {β γ : Type} (mi : List (String × β))
    (ks : List String) (h : β → γ) (d : γ)
    (hperm : ks.Perm (mi.map Prod.fst)) (hnd : (mi.map Prod.fst).Nodup) :
    (ks.map (fun k => (List.lookup k mi).elim d h)).Perm
      (mi.map (fun q => h q.2)) := by
  have h1 := List.Perm.map (fun k => (List.lookup k mi).elim d h) hperm
  rw [map_lookup_over_keys mi h d hnd] at h1
  exact h1

theorem lookup_get_first {β : Type} (md : List (String × β)) (k : String)
    (hk : k ∈ md.map Prod.fst) :
    ∃ j, ∃ (hj : j < md.length), (md.get ⟨j, hj⟩).1 = k ∧
      List.lookup k md = some (md.get ⟨j, hj⟩).2 := by
  induction md with
  | nil => simp at hk
  | cons e rest ih =>
      obtain ⟨k1, v1⟩ := e
      rcases Decidable.em (k = k1) with he | he
      · subst he
        exact ⟨0, by simp, rfl, lookup_cons_self _ _ _⟩
      · simp only [List.map_cons, List.mem_cons] at hk
        obtain ⟨j, hj, hkey, hl⟩ := ih (hk.resolve_left he)
        refine ⟨j + 1, by simpa using hj, ?_, ?_⟩
        · simpa using hkey
        · rw [lookup_cons_ne _ _ _ _ he, hl]
          simp

/-! ## C7 — `_init_metadata` characterisation -/

theorem initSpecMd_keys (s : Nat) (item : List (String × ArrayMeta)) :
    (initSpecMd s item).map Prod.fst = item.map Prod.fst := by
  induction item generalizing s with
  | nil => rfl
  | cons e rest ih => simp [initSpecMd, ih]

theorem initSpecMd_length (s : Nat) (item : List (String × ArrayMeta)) :
    (initSpecMd s item).length = item.length := by
  induction item generalizing s with
  | nil => rfl
  | cons e rest ih => simp [initSpecMd, ih]

theorem initSpecMd_get_cols (s : Nat) (item : List (String × ArrayMeta))
    (j : Nat) (hj : j < (initSpecMd s item).length) :
    ((initSpecMd s item).get ⟨j, hj⟩).2.offsetCol = s + 2 * j ∧
    ((initSpecMd s item).get ⟨j, hj⟩).2.sizeCol = s + 2 * j + 1 := by
  induction item generalizing s j with
  | nil => simp [initSpecMd] at hj
  | cons e rest ih =>
      cases j with
      | zero => simp [initSpecMd]
      | succ j =>
          have hj' : j < (initSpecMd (s + 2) rest).length := by
            simpa [initSpecMd] using hj
          have hih := ih (s + 2) j hj'
          constructor
          · show ((initSpecMd (s + 2) rest).get ⟨j, hj'⟩).2.offsetCol = _
            rw [hih.1]
            omega
          · show ((initSpecMd (s + 2) rest).get ⟨j, hj'⟩).2.sizeCol = _
            rw [hih.2]
            omega

theorem initCore_go (item : List (String × ArrayMeta)) :
    ∀ (accM : List (String × ColMeta)) (accD : List (List Nat)),
    item.foldl (fun (acc : List (String × ColMeta) × List (List Nat)) e =>
      (acc.1 ++ [(e.1, ⟨acc.2.length, acc.2.length + 1, e.2.dtype⟩)],
       acc.2 ++ [[], []])) (accM, accD) =
    (accM ++ initSpecMd accD.length item,
     accD ++ List.replicate (2 * item.length) []) := by
  induction item with
  | nil =>
      intro accM accD
      simp [initSpecMd]
  | cons e rest ih =>
      intro accM accD
      simp only [List.foldl_cons]
      rw [ih]
      have h2 : 2 * (rest.length + 1) = 2 * rest.length + 1 + 1 := by omega
      simp [initSpecMd, h2, List.replicate_succ, List.append_assoc,
        Prod.ext_iff]

theorem initMetadataCore_eq (item : List (String × ArrayMeta)) :
    initMetadataCore item =
      (initSpecMd 0 item, List.replicate (2 * item.length) []) := by
  unfold initMetadataCore
  rw [initCore_go item [] []]
  simp

/-! ## C7 — entry-loop tiling -/

theorem serializeEntries_tiling (entries : List (String × NpArray)) :
    ∀ (disk : Bytes) (pos cursor : Nat) (d : Bytes) (p c : Nat)
      (mi : List (String × ArrayMeta)),
    serializeEntries false disk pos cursor entries = .inl (d, p, c, mi) →
    cursor ≤ c ∧
    (cursor ≤ disk.length → c ≤ d.length) ∧
    mi.map Prod.fst = entries.map Prod.fst ∧
    (∀ m ∈ mi, cursor ≤ m.2.offset ∧ m.2.offset + m.2.size ≤ c) ∧
    (mi.map (fun m => (m.2.offset, m.2.size))).Pairwise regionsDisjoint := by
  induction entries with
  | nil =>
      intro disk pos cursor d p c mi h
      simp only [serializeEntries, Sum.inl.injEq, Prod.mk.injEq] at h
      obtain ⟨rfl, rfl, rfl, rfl⟩ := h
      exact ⟨le_refl _, fun h => h, rfl, by simp, by simp⟩
  | cons e rest ih =>
      intro disk pos cursor d p c mi h
      obtain ⟨k, a⟩ := e
      rcases hser : serialize_array a with e' | bt
      · simp [serializeEntries, hser] at h
      · obtain ⟨bs, t⟩ := bt
        rcases hrec : serializeEntries false (writeAt disk cursor bs)
            (cursor + bs.length) (cursor + bs.length) rest with s | fe
        case inr => simp [serializeEntries, hser, hrec] at h
        obtain ⟨d', p', c', mi'⟩ := s
        simp only [serializeEntries, hser, hrec, Bool.false_eq_true,
          if_false, Sum.inl.injEq, Prod.mk.injEq, reduceIte] at h
        obtain ⟨rfl, rfl, rfl, rfl⟩ := h
        obtain ⟨ih1, ih2, ih3, ih4, ih5⟩ :=
          ih _ _ _ _ _ _ _ hrec
        have hdlen : c' ≤ d'.length := by
          apply ih2
          rw [writeAt_length]
          omega
        refine ⟨by omega, fun _ => hdlen, by simp [ih3], ?_, ?_⟩
        · intro m hm
          rcases List.mem_cons.mp hm with rfl | hm'
          · exact ⟨le_refl _, ih1⟩
          · obtain ⟨hml, hmr⟩ := ih4 m hm'
            exact ⟨by omega, hmr⟩
        · simp only [List.map_cons]
          refine List.Pairwise.cons ?_ ih5
          intro y hy
          obtain ⟨m', hm', rfl⟩ := List.mem_map.mp hy
          obtain ⟨hml, _⟩ := ih4 m' hm'
          exact Or.inl (by simpa using hml)

/-! ## C7 — `_append_metadata` characterisation -/

theorem lookup_eq_none_of_not_mem {β : Type} (mi : List (String × β))
    (k : String) (hk : k ∉ mi.map Prod.fst) : List.lookup k mi = none := by
  induction mi with
  | nil => rfl
  | cons e rest ih =>
      obtain ⟨k1, v1⟩ := e
      simp only [List.map_cons, List.mem_cons, not_or] at hk
      rw [lookup_cons_ne _ _ _ _ hk.1, ih hk.2]

theorem md_keys_ne (md : List (String × ColMeta))
    (hnd : (md.map Prod.fst).Nodup) (i j : Nat)
    (hi : i < md.length) (hj : j < md.length) (hij : i ≠ j) :
    (md.get ⟨i, hi⟩).1 ≠ (md.get ⟨j, hj⟩).1 := by
  intro he
  have hi' : i < (md.map Prod.fst).length := by simpa using hi
  have hj' : j < (md.map Prod.fst).length := by simpa using hj
  have hg : (md.map Prod.fst).get ⟨i, hi'⟩ = (md.map Prod.fst).get ⟨j, hj'⟩ := by
    simpa [List.get_map] using he
  have hfin := (List.Nodup.get_inj_iff hnd).mp hg
  exact hij (by simpa using hfin)

theorem appendMetadata_spec (md : List (String × ColMeta))
    (hnd : (md.map Prod.fst).Nodup)
    (hcols : ∀ j, (hj : j < md.length) →
      (md.get ⟨j, hj⟩).2.offsetCol = 2 * j ∧
      (md.get ⟨j, hj⟩).2.sizeCol = 2 * j + 1)
    (mi : List (String × ArrayMeta)) :
    ∀ (data d' : List (List Nat)),
    (∀ q ∈ mi, q.1 ∈ md.map Prod.fst) →
    (mi.map Prod.fst).Nodup →
    data.length = 2 * md.length →
    appendMetadata md data mi = (d', none) →
    d'.length = data.length ∧
    ∀ j, (hj : j < md.length) →
      d'.getD (2 * j) [] = data.getD (2 * j) [] ++
        ((List.lookup (md.get ⟨j, hj⟩).1 mi).elim [] (fun am => [am.offset])) ∧
      d'.getD (2 * j + 1) [] = data.getD (2 * j + 1) [] ++
        ((List.lookup (md.get ⟨j, hj⟩).1 mi).elim [] (fun am => [am.size])) := by
  induction mi with
  | nil =>
      intro data d' _ _ hdl h
      simp only [appendMetadata, Prod.mk.injEq] at h
      obtain ⟨rfl, -⟩ := h
      exact ⟨rfl, fun j hj => by simp⟩
  | cons q rest ih =>
      intro data d' hmem hndmi hdl h
      obtain ⟨k, am⟩ := q
      obtain ⟨j0, hj0, hkey, hlook⟩ :=
        lookup_get_first md k (hmem (k, am) (List.mem_cons_self _ _))
      have hoc := (hcols j0 hj0).1
      have hsc := (hcols j0 hj0).2
      have h2j0 : 2 * j0 < data.length := by omega
      simp only [appendMetadata, appendMetadataStep, hlook, hoc, hsc] at h
      by_cases hdt : am.dtype = (md.get ⟨j0, hj0⟩).2.dtype
      · rw [if_pos hdt] at h
        set D1 := data.set (2 * j0) (data.getD (2 * j0) [] ++ [am.offset])
          with hD1
        set D2 := D1.set (2 * j0 + 1) (D1.getD (2 * j0 + 1) [] ++ [am.size])
          with hD2
        have hndrest : (rest.map Prod.fst).Nodup := by
          simp only [List.map_cons, List.nodup_cons] at hndmi
          exact hndmi.2
        have hknotin : k ∉ rest.map Prod.fst := by
          simp only [List.map_cons, List.nodup_cons] at hndmi
          exact hndmi.1
        have hD2len : D2.length = data.length := by
          rw [hD2, hD1]
          simp [List.length_set]
        obtain ⟨ihlen, ihj⟩ :=
          ih D2 d' (fun q hq => hmem q (List.mem_cons_of_mem _ hq)) hndrest
            (by rw [hD2len, hdl]) h
        refine ⟨by rw [ihlen, hD2len], fun j hj => ?_⟩
        obtain ⟨ihjo, ihjs⟩ := ihj j hj
        by_cases hjj : j = j0
        · subst hjj
          have hkrest : List.lookup k rest = none :=
            lookup_eq_none_of_not_mem rest k hknotin
          rw [hkey] at ihjo ihjs ⊢
          rw [hkrest] at ihjo ihjs
          simp only [Option.elim_none, List.append_nil] at ihjo ihjs
          rw [lookup_cons_self]
          have eo : D2.getD (2 * j) [] = data.getD (2 * j) [] ++ [am.offset] := by
            rw [hD2, getD_set_ne _ _ _ (by omega), hD1,
              getD_set_self _ _ (by omega)]
          have es : D2.getD (2 * j + 1) [] =
              data.getD (2 * j + 1) [] ++ [am.size] := by
            rw [hD2, getD_set_self _ _ (by rw [hD1, List.length_set]; omega),
              hD1, getD_set_ne _ _ _ (by omega)]
          exact ⟨by rw [ihjo, eo]; rfl, by rw [ihjs, es]; rfl⟩
        · have hkne : (md.get ⟨j, hj⟩).1 ≠ k := by
            rw [← hkey]
            exact md_keys_ne md hnd j j0 hj hj0 hjj
          rw [lookup_cons_ne _ _ _ _ hkne]
          have eo : D2.getD (2 * j) [] = data.getD (2 * j) [] := by
            rw [hD2, getD_set_ne _ _ _ (by omega), hD1,
              getD_set_ne _ _ _ (by omega)]
          have es : D2.getD (2 * j + 1) [] = data.getD (2 * j + 1) [] := by
            rw [hD2, getD_set_ne _ _ _ (by omega), hD1,
              getD_set_ne _ _ _ (by omega)]
          exact ⟨by rw [ihjo, eo], by rw [ihjs, es]⟩
      · rw [if_neg hdt] at h
        simp at h

/-! ## C7 — `MetadataWriter.add_item` characterisation -/

theorem getD_mem (l : List (List Nat)) (i : Nat) (h : i < l.length) :
    l.getD i [] ∈ l := by
  rw [List.getD_eq_getElem _ _ h]
  exact List.getElem_mem h

theorem keySetEq_mem_iff (a b : List String) (h : keySetEq a b = true)
    (k : String) : k ∈ a ↔ k ∈ b := by
  simp only [keySetEq, Bool.and_eq_true, List.all_eq_true] at h
  constructor
  · intro hk
    simpa using h.1 k hk
  · intro hk
    simpa using h.2 k hk

theorem keySetEq_self (a : List String) : keySetEq a a = true := by
  simp only [keySetEq, Bool.and_eq_true, List.all_eq_true]
  exact ⟨fun k hk => by simpa using hk, fun k hk => by simpa using hk⟩

theorem getD_replicate_nil (n i : Nat) :
    (List.replicate n ([] : List Nat)).getD i [] = [] := by
  induction n generalizing i with
  | zero => simp
  | succ n ih =>
      cases i with
      | zero => simp [List.replicate_succ]
      | succ i => simpa [List.replicate_succ] using ih i

theorem zip_elim_append (colO colS : List Nat) (hl : colO.length = colS.length)
    (o : Option ArrayMeta) :
    (colO ++ o.elim [] (fun am => [am.offset])).zip
      (colS ++ o.elim [] (fun am => [am.size])) =
    colO.zip colS ++ o.elim [] (fun am => [(am.offset, am.size)]) := by
  cases o with
  | none => simp
  | some am =>
      rw [Option.elim_some, Option.elim_some, Option.elim_some,
        List.zip_append hl]
      rfl

theorem recordedRegions_some (mw : MetadataWriter)
    (md : List (String × ColMeta)) (h : mw.metadata = some md) :
    mw.recordedRegions = (md.map (fun e =>
      (mw.data.getD e.2.offsetCol []).zip
        (mw.data.getD e.2.sizeCol []))).flatten := by
  unfold MetadataWriter.recordedRegions
  rw [h]

theorem meta_append_core (md : List (String × ColMeta))
    (data d' : List (List Nat)) (len : Nat)
    (mi : List (String × ArrayMeta))
    (hstr : MdStruct md data)
    (hcl : ∀ col ∈ data, col.length = len)
    (hndmi : (mi.map Prod.fst).Nodup)
    (hks : keySetEq (mi.map Prod.fst) (md.map Prod.fst) = true)
    (happ : appendMetadata md data mi = (d', none)) :
    d'.length = data.length ∧
    (∀ col ∈ d', col.length = len + 1) ∧
    ((md.map (fun e => (d'.getD e.2.offsetCol []).zip
        (d'.getD e.2.sizeCol []))).flatten).Perm
      ((md.map (fun e => (data.getD e.2.offsetCol []).zip
        (data.getD e.2.sizeCol []))).flatten ++
        mi.map (fun q => (q.2.offset, q.2.size))) := by
  obtain ⟨hnd, hdl, hcols⟩ := hstr
  have hmemmi : ∀ q ∈ mi, q.1 ∈ md.map Prod.fst := fun q hq =>
    (keySetEq_mem_iff _ _ hks q.1).mp (List.mem_map.mpr ⟨q, hq, rfl⟩)
  obtain ⟨hlen', hchar⟩ :=
    appendMetadata_spec md hnd hcols mi data d' hmemmi hndmi hdl happ
  have hlookup : ∀ j, (hj : j < md.length) →
      ∃ am, List.lookup (md.get ⟨j, hj⟩).1 mi = some am := by
    intro j hj
    apply lookup_of_mem_keys
    exact (keySetEq_mem_iff _ _ hks _).mpr
      (List.mem_map.mpr ⟨md.get ⟨j, hj⟩, List.get_mem _ _ _, rfl⟩)
  constructor
  · exact hlen'
  constructor
  · intro col hcol
    obtain ⟨⟨i, hi⟩, hgi⟩ := List.mem_iff_get.mp hcol
    have hid : d'.getD i [] = col := by
      rw [List.getD_eq_getElem _ _ hi]
      exact hgi ▸ rfl
    have hi' : i < 2 * md.length := by
      rw [← hdl, ← hlen']
      exact hi
    rcases Nat.even_or_odd i with ⟨j, hij⟩ | ⟨j, hij⟩
    · have hj : j < md.length := by omega
      obtain ⟨am, ham⟩ := hlookup j hj
      have := (hchar j hj).1
      rw [ham, Option.elim_some] at this
      have hcollen : (data.getD (2 * j) []).length = len :=
        hcl _ (getD_mem data (2 * j) (by omega))
      rw [← hid, show i = 2 * j by omega, this, List.length_append, hcollen]
      rfl
    · have hj : j < md.length := by omega
      obtain ⟨am, ham⟩ := hlookup j hj
      have := (hchar j hj).2
      rw [ham, Option.elim_some] at this
      have hcollen : (data.getD (2 * j + 1) []).length = len :=
        hcl _ (getD_mem data (2 * j + 1) (by omega))
      rw [← hid, show i = 2 * j + 1 by omega, this, List.length_append,
        hcollen]
      rfl
  · have hmapeq : md.map (fun e => (d'.getD e.2.offsetCol []).zip
        (d'.getD e.2.sizeCol [])) =
        md.map (fun e =>
          (data.getD e.2.offsetCol []).zip (data.getD e.2.sizeCol []) ++
          (List.lookup e.1 mi).elim []
            (fun am => [(am.offset, am.size)])) := by
      apply List.map_congr_left
      intro e he
      obtain ⟨⟨j, hj⟩, hge⟩ := List.mem_iff_get.mp he
      obtain ⟨hoc, hsc⟩ := hcols j hj
      rw [← hge, hoc, hsc, (hchar j hj).1, (hchar j hj).2]
      exact zip_elim_append _ _ (by
        rw [hcl _ (getD_mem data (2 * j) (by omega)),
          hcl _ (getD_mem data (2 * j + 1) (by omega))]) _
    rw [hmapeq]
    refine (flatten_map_append md _ _).trans ?_
    refine List.Perm.append (List.Perm.refl _) ?_
    have hswap : md.map (fun e => (List.lookup e.1 mi).elim []
        (fun am => [(am.offset, am.size)])) =
        (md.map Prod.fst).map (fun k => (List.lookup k mi).elim []
          (fun am => [(am.offset, am.size)])) := by
      rw [List.map_map]
      rfl
    rw [hswap]
    have hperm : (md.map Prod.fst).Perm (mi.map Prod.fst) :=
      (List.perm_ext_iff_of_nodup hnd hndmi).mpr
        (fun k => (keySetEq_mem_iff _ _ hks k).symm)
    have hp := (map_lookup_elim_perm mi (md.map Prod.fst)
      (fun am => [(am.offset, am.size)]) [] hperm hndmi).flatten
    refine hp.trans ?_
    rw [flatten_map_singleton]

theorem flatten_map_nil {α : Type} (l : List α) :
    ((l.map (fun _ => ([] : List (Nat × Nat)))).flatten) = [] := by
  induction l <;> simp [*]

theorem meta_add_item_ok (mw mw' : MetadataWriter)
    (mi : List (String × ArrayMeta)) (hndmi : (mi.map Prod.fst).Nodup)
    (hcl : ∀ col ∈ mw.data, col.length = mw.length)
    (hzero : mw.length = 0 → mw.metadata = none ∧ mw.data = [])
    (hstruct : ∀ md, mw.metadata = some md → MdStruct md mw.data)
    (h : mw.add_item mi = (mw', none)) :
    mw'.length = mw.length + 1 ∧
    (∀ col ∈ mw'.data, col.length = mw'.length) ∧
    (mw'.length = 0 → mw'.metadata = none ∧ mw'.data = []) ∧
    (∀ md', mw'.metadata = some md' → MdStruct md' mw'.data) ∧
    mw'.recordedRegions.Perm
      (mw.recordedRegions ++ mi.map (fun q => (q.2.offset, q.2.size))) := by
  by_cases hL : mw.length = 0
  · obtain ⟨hmn, hdn⟩ := hzero hL
    have hstr1 : MdStruct (initSpecMd 0 mi)
        (List.replicate (2 * mi.length) []) := by
      refine ⟨?_, ?_, ?_⟩
      · rw [initSpecMd_keys]
        exact hndmi
      · rw [List.length_replicate, initSpecMd_length]
      · intro j hj
        have hc := initSpecMd_get_cols 0 mi j hj
        simpa using hc
    have hkseq : keySetEq (mi.map Prod.fst)
        ((initSpecMd 0 mi).map Prod.fst) = true := by
      rw [initSpecMd_keys]
      exact keySetEq_self _
    simp only [MetadataWriter.add_item, hL, if_true, initMetadataCore_eq,
      hkseq] at h
    rcases hA : appendMetadata (initSpecMd 0 mi)
        (List.replicate (2 * mi.length) []) mi with ⟨d', oe⟩
    cases oe with
    | some err =>
        rw [hA] at h
        simp at h
    | none =>
        rw [hA] at h
        have heq : (⟨some (initSpecMd 0 mi), d', 0 + 1⟩ : MetadataWriter)
            = mw' := congrArg Prod.fst h
        subst heq
        obtain ⟨hclen, hccols, hcperm⟩ := meta_append_core
          (initSpecMd 0 mi) (List.replicate (2 * mi.length) []) d' 0 mi
          hstr1
          (fun col hcol => by rw [List.eq_of_mem_replicate hcol]; rfl)
          hndmi hkseq hA
        refine ⟨by simp [hL], ?_, ?_, ?_, ?_⟩
        · intro col hcol
          exact hccols col hcol
        · intro h0
          simp at h0
        · intro md' hmd'
          simp only [Option.some.injEq] at hmd'
          subst hmd'
          refine ⟨hstr1.1, ?_, hstr1.2.2⟩
          rw [hclen, List.length_replicate, initSpecMd_length]
        · have hrw : mw.recordedRegions = [] := by
            unfold MetadataWriter.recordedRegions
            rw [hmn]
          have hrw' : MetadataWriter.recordedRegions
              ⟨some (initSpecMd 0 mi), d', 0 + 1⟩ =
              ((initSpecMd 0 mi).map (fun e =>
                (d'.getD e.2.offsetCol []).zip
                  (d'.getD e.2.sizeCol []))).flatten := rfl
          rw [hrw, hrw']
          refine hcperm.trans ?_
          have hnilcols : (initSpecMd 0 mi).map (fun e =>
              ((List.replicate (2 * mi.length) ([] : List Nat)).getD
                e.2.offsetCol []).zip
              ((List.replicate (2 * mi.length) []).getD e.2.sizeCol [])) =
              (initSpecMd 0 mi).map (fun _ => []) :=
            List.map_congr_left (fun e _ => by
              rw [getD_replicate_nil, getD_replicate_nil]
              simp)
          rw [hnilcols, flatten_map_nil]
  · have hmds : ∃ md, mw.metadata = some md := by
      rcases hmd : mw.metadata with - | md
      · simp only [MetadataWriter.add_item, hL, if_false, hmd] at h
        simp at h
      · exact ⟨md, rfl⟩
    obtain ⟨md, hmd⟩ := hmds
    have hstr := hstruct md hmd
    rcases hks : keySetEq (mi.map Prod.fst) (md.map Prod.fst) with - | -
    · simp only [MetadataWriter.add_item, hL, if_false, hmd, hks] at h
      simp at h
    · simp only [MetadataWriter.add_item, hL, if_false, hmd, hks,
        if_true] at h
      rcases hA : appendMetadata md mw.data mi with ⟨d', oe⟩
      cases oe with
      | some err =>
          rw [hA] at h
          simp at h
      | none =>
          rw [hA] at h
          have heq : (⟨some md, d', mw.length + 1⟩ : MetadataWriter)
              = mw' := congrArg Prod.fst h
          subst heq
          obtain ⟨hclen, hccols, hcperm⟩ :=
            meta_append_core md mw.data d' mw.length mi hstr hcl hndmi hks hA
          refine ⟨rfl, ?_, ?_, ?_, ?_⟩
          · intro col hcol
            exact hccols col hcol
          · intro h0
            simp at h0
          · intro md' hmd'
            simp only [Option.some.injEq] at hmd'
            subst hmd'
            refine ⟨hstr.1, ?_, hstr.2.2⟩
            rw [hclen, hstr.2.1]
          · have hrw : MetadataWriter.recordedRegions
                ⟨some md, d', mw.length + 1⟩ =
                (md.map (fun e => (d'.getD e.2.offsetCol []).zip
                  (d'.getD e.2.sizeCol []))).flatten := rfl
            rw [hrw, recordedRegions_some mw md hmd]
            exact hcperm

/-! ## C7 — the write invariant -/

theorem regionsDisjoint_symm {a b : Nat × Nat} (h : regionsDisjoint a b) :
    regionsDisjoint b a := h.symm

theorem add_item_preserves_WInv (f f' : File)
    (it : List (String × NpArray)) (hnd : (it.map Prod.fst).Nodup)
    (hinv : WInv f) (h : f.add_item it = (f', none)) : WInv f' := by
  obtain ⟨hm, hfp, hcl, hro, mw, c, hms, hio, hc1, hc2, hmi⟩ := hinv
  obtain ⟨hclens, hzero, hstruct, hbounds, hpair⟩ := hmi
  simp only [File.add_item, hfp, hcl, hro, hm, hio, Option.getD_some,
    not_true_eq_false, Bool.false_eq_true, if_false, ne_eq,
    ite_false, ite_true, reduceIte] at h
  rcases hser : serializeEntries false f.disk f.fpPos c it with q | fe
  · obtain ⟨d, p, c', mi⟩ := q
    rw [hser] at h
    simp only [hms] at h
    rcases hadd : mw.add_item mi with ⟨mw', oe⟩
    cases oe with
    | some err =>
        rw [hadd] at h
        simp at h
    | none =>
        rw [hadd] at h
        have heq :
            ({ mode := "w", fpSome := true, fpClosed := false,
               fpReadOnly := false, fpPos := p, disk := d,
               version := f.version, metaOffset := f.metaOffset,
               metaLength := f.metaLength, metaS := MetaState.w mw',
               itemOffset := some c' } : File) = f' :=
          congrArg Prod.fst h
        subst heq
        obtain ⟨ht1, ht2, ht3, ht4, ht5⟩ :=
          serializeEntries_tiling it f.disk f.fpPos c d p c' mi hser
        have hndmi : (mi.map Prod.fst).Nodup := by
          rw [ht3]
          exact hnd
        obtain ⟨hm1, hm2, hm3, hm4, hm5⟩ :=
          meta_add_item_ok mw mw' mi hndmi hclens hzero hstruct hadd
        refine ⟨rfl, rfl, rfl, rfl, mw', c', rfl, rfl, by omega,
          ht2 hc2, hm2, hm3, hm4, ?_, ?_⟩
        · intro r hr
          have hr' : r ∈ mw.recordedRegions ++
              mi.map (fun q => (q.2.offset, q.2.size)) := hm5.mem_iff.mp hr
          rcases List.mem_append.mp hr' with hold | hnew
          · obtain ⟨hb1, hb2⟩ := hbounds r hold
            exact ⟨hb1, by omega⟩
          · obtain ⟨m, hmm, rfl⟩ := List.mem_map.mp hnew
            obtain ⟨hb1, hb2⟩ := ht4 m hmm
            exact ⟨by omega, hb2⟩
        · have hcat : (mw.recordedRegions ++
              mi.map (fun q => (q.2.offset, q.2.size))).Pairwise
              regionsDisjoint := by
            rw [List.pairwise_append]
            refine ⟨hpair, ht5, ?_⟩
            intro a ha b hb
            obtain ⟨-, ha2⟩ := hbounds a ha
            obtain ⟨m, hmm, rfl⟩ := List.mem_map.mp hb
            obtain ⟨hb1, -⟩ := ht4 m hmm
            exact Or.inl (by omega)
          exact hcat.perm hm5.symm (fun hxy => regionsDisjoint_symm hxy)
  · obtain ⟨d, p, e⟩ := fe
    rw [hser] at h
    simp at h

theorem writeItems_WInv (items : List (List (String × NpArray)))
    (hnd : ∀ it ∈ items, (it.map Prod.fst).Nodup) :
    ∀ f, WInv f → (writeItems f items).2 = none →
      WInv (writeItems f items).1 := by
  induction items with
  | nil =>
      intro f hi _
      exact hi
  | cons it rest ih =>
      intro f hi hs
      rcases hadd : f.add_item it with ⟨f1, oe⟩
      cases oe with
      | some err =>
          simp only [writeItems, hadd] at hs
          simp at hs
      | none =>
          simp only [writeItems, hadd] at hs ⊢
          exact ih (fun q hq => hnd q (List.mem_cons_of_mem _ hq)) f1
            (add_item_preserves_WInv f f1 it
              (hnd it (List.mem_cons_self _ _)) hi hadd) hs

theorem freshW_WInv : WInv (mkFile [] "w").1 := by
  refine ⟨rfl, rfl, rfl, rfl, mkMetadataWriter, ITEM_START, rfl, rfl,
    le_refl _, by decide, ?_, ?_, ?_, ?_, ?_⟩
  · intro col hcol
    simp [mkMetadataWriter] at hcol
  · intro _
    exact ⟨rfl, rfl⟩
  · intro md hmd
    simp [mkMetadataWriter] at hmd
  · intro r hr
    simp [mkMetadataWriter, MetadataWriter.recordedRegions] at hr
  · simp [mkMetadataWriter, MetadataWriter.recordedRegions]

/-- C7: for every sequence of `add_item` calls on a fresh write handle
that all succeed, the index invariant holds in the final state: every
recorded `(offset, size)` region starts at or after the end of the
fixed header (hence offsets are non-negative), ends at or before the
committed write cursor — which never exceeds the end of the file — and
the regions of distinct (item, key) entries are pairwise
non-overlapping, because offsets are assigned by the monotonically
advancing cursor that is committed only when the whole item
succeeds. -/
theorem c7_index_regions_invariant
    (items : List (List (String × NpArray)))
    (hnd : ∀ it ∈ items, (it.map Prod.fst).Nodup)
    (hsucc : (writeItems (mkFile [] "w").1 items).2 = none) :
    ∃ mw c, (writeItems (mkFile [] "w").1 items).1.metaS = .w mw ∧
      (writeItems (mkFile [] "w").1 items).1.itemOffset = some c ∧
      ITEM_START ≤ c ∧
      c ≤ (writeItems (mkFile [] "w").1 items).1.disk.length ∧
      (∀ r ∈ mw.recordedRegions,
        ITEM_START ≤ r.1 ∧ r.1 + r.2 ≤ c) ∧
      mw.recordedRegions.Pairwise regionsDisjoint := by
  obtain ⟨-, -, -, -, mw, c, hms, hio, hc1, hc2, hmi⟩ :=
    writeItems_WInv items hnd (mkFile [] "w").1 freshW_WInv hsucc
  obtain ⟨-, -, -, hbounds, hpair⟩ := hmi
  exact ⟨mw, c, hms, hio, hc1, hc2, hbounds, hpair⟩

theorem c7_witness :
    (∀ it ∈ [[("a", NpArray.numeric 2 [7]), ("b", NpArray.numeric 5 [1, 0, 0, 0])],
        [("b", NpArray.numeric 5 [2, 0, 0, 0]), ("a", NpArray.numeric 2 [9])]],
      (it.map Prod.fst).Nodup) ∧
    (writeItems (mkFile [] "w").1
      [[("a", NpArray.numeric 2 [7]), ("b", NpArray.numeric 5 [1, 0, 0, 0])],
       [("b", NpArray.numeric 5 [2, 0, 0, 0]), ("a", NpArray.numeric 2 [9])]]).2
      = none ∧
    (∃ mw c, (writeItems (mkFile [] "w").1
        [[("a", NpArray.numeric 2 [7]), ("b", NpArray.numeric 5 [1, 0, 0, 0])],
         [("b", NpArray.numeric 5 [2, 0, 0, 0]), ("a", NpArray.numeric 2 [9])]]).1.metaS
          = .w mw ∧
      (writeItems (mkFile [] "w").1
        [[("a", NpArray.numeric 2 [7]), ("b", NpArray.numeric 5 [1, 0, 0, 0])],
         [("b", NpArray.numeric 5 [2, 0, 0, 0]), ("a", NpArray.numeric 2 [9])]]).1.itemOffset
          = some c ∧
      ITEM_START ≤ c ∧
      c ≤ (writeItems (mkFile [] "w").1
        [[("a", NpArray.numeric 2 [7]), ("b", NpArray.numeric 5 [1, 0, 0, 0])],
         [("b", NpArray.numeric 5 [2, 0, 0, 0]), ("a", NpArray.numeric 2 [9])]]).1.disk.length ∧
      (∀ r ∈ mw.recordedRegions, ITEM_START ≤ r.1 ∧ r.1 + r.2 ≤ c) ∧
      mw.recordedRegions.Pairwise regionsDisjoint) :=
  ⟨by decide, by decide,
   c7_index_regions_invariant
     [[("a", NpArray.numeric 2 [7]), ("b", NpArray.numeric 5 [1, 0, 0, 0])],
      [("b", NpArray.numeric 5 [2, 0, 0, 0]), ("a", NpArray.numeric 2 [9])]]
     (by decide) (by decide)⟩

end Syrah
